import Mathlib

/-!
Verification development for the EmojiCompat font creation script
(`emoji/core/scripts/createfont.py`).

The Python source is shallowly embedded: dictionaries become association
lists with insertion-order semantics (`dictInsert` replaces an existing
key in place, otherwise appends, exactly like CPython dicts), in-place
object mutation becomes functional update of the association list, and
code that can raise (`KeyError`, `ValueError`, `IndexError`) returns
`Except PyError`.  Machine integers are modelled as `Nat` (the script only
handles non-negative code points, ids and sizes, and Python ints do not
overflow).
-/

set_option maxHeartbeats 1000000

deriving instance DecidableEq for Except

namespace CreateFont

/-- Python exception kinds raised on the modelled code paths. -/
inductive PyError where
  | keyError
  | valueError
  | indexError
deriving DecidableEq, Repr

/-! ### Association lists with Python `dict` semantics -/

def dictLookup {α β : Type} [DecidableEq α] (d : List (α × β)) (k : α) : Option β :=
  match d with
  | [] => none
  | (k', v) :: rest => if k' = k then some v else dictLookup rest k

/-- `d[k] = v` on a Python dict: replace in place if the key exists,
otherwise append at the end (insertion order is preserved). -/
def dictInsert {α β : Type} [DecidableEq α] (d : List (α × β)) (k : α) (v : β) :
    List (α × β) :=
  match d with
  | [] => [(k, v)]
  | (k', v') :: rest => if k' = k then (k', v) :: rest else (k', v') :: dictInsert rest k v

def dictKeys {α β : Type} (d : List (α × β)) : List α := d.map Prod.fst

def dictValues {α β : Type} (d : List (α × β)) : List β := d.map Prod.snd

/-- `d.update(upd)` on Python dicts. -/
def dictUpdate {α β : Type} [DecidableEq α] (d upd : List (α × β)) : List (α × β) :=
  upd.foldl (fun acc p => dictInsert acc p.1 p.2) d

theorem dictKeys_nil {α β : Type} : dictKeys ([] : List (α × β)) = [] := rfl

theorem dictKeys_cons {α β : Type} (p : α × β) (d : List (α × β)) :
    dictKeys (p :: d) = p.1 :: dictKeys d := rfl

theorem dictValues_nil {α β : Type} : dictValues ([] : List (α × β)) = [] := rfl

theorem dictValues_cons {α β : Type} (p : α × β) (d : List (α × β)) :
    dictValues (p :: d) = p.2 :: dictValues d := rfl

theorem dictLookup_insert_self {α β : Type} [DecidableEq α]
    (d : List (α × β)) (k : α) (v : β) :
    dictLookup (dictInsert d k v) k = some v := by
  induction d with
  | nil => simp [dictInsert, dictLookup]
  | cons p rest ih =>
    obtain ⟨k', v'⟩ := p
    by_cases h : k' = k
    · simp [dictInsert, dictLookup, h]
    · simp [dictInsert, dictLookup, h, ih]

theorem dictLookup_insert_ne {α β : Type} [DecidableEq α]
    (d : List (α × β)) (k k' : α) (v : β) (h : k' ≠ k) :
    dictLookup (dictInsert d k v) k' = dictLookup d k' := by
  have h' : ¬ k = k' := fun hh => h hh.symm
  induction d with
  | nil => simp [dictInsert, dictLookup, h']
  | cons p rest ih =>
    obtain ⟨k0, v0⟩ := p
    by_cases h0 : k0 = k
    · subst h0
      simp [dictInsert, dictLookup, h']
    · simp [dictInsert, dictLookup, h0, ih]

theorem mem_of_mem_dictInsert {α β : Type} [DecidableEq α]
    {d : List (α × β)} {k : α} {v : β} {p : α × β}
    (hp : p ∈ dictInsert d k v) : p = (k, v) ∨ p ∈ d := by
  induction d with
  | nil => simpa [dictInsert] using hp
  | cons q rest ih =>
    obtain ⟨k0, v0⟩ := q
    by_cases h0 : k0 = k
    · subst h0
      rcases (by simpa [dictInsert] using hp : p = (k0, v) ∨ p ∈ rest) with h | h
      · exact Or.inl h
      · exact Or.inr (List.mem_cons_of_mem _ h)
    · rcases (by simpa [dictInsert, h0] using hp : p = (k0, v0) ∨ p ∈ dictInsert rest k v)
        with h | h
      · exact Or.inr (by simp [h])
      · rcases ih h with h' | h'
        · exact Or.inl h'
        · exact Or.inr (List.mem_cons_of_mem _ h')

theorem dictKeys_insert_subset {α β : Type} [DecidableEq α]
    (d : List (α × β)) (k : α) (v : β) :
    ∀ x ∈ dictKeys (dictInsert d k v), x = k ∨ x ∈ dictKeys d := by
  intro x hx
  induction d with
  | nil => simpa [dictInsert, dictKeys_cons, dictKeys_nil] using hx
  | cons q rest ih =>
    obtain ⟨k0, v0⟩ := q
    by_cases h0 : k0 = k
    · subst h0
      rw [show dictInsert ((k0, v0) :: rest) k0 v = (k0, v) :: rest by simp [dictInsert]] at hx
      rw [dictKeys_cons] at hx
      rcases List.mem_cons.mp hx with h | h
      · exact Or.inr (by rw [dictKeys_cons]; simp [h])
      · exact Or.inr (by rw [dictKeys_cons]; exact List.mem_cons_of_mem _ h)
    · rw [show dictInsert ((k0, v0) :: rest) k v = (k0, v0) :: dictInsert rest k v by
          simp [dictInsert, h0]] at hx
      rw [dictKeys_cons] at hx
      rcases List.mem_cons.mp hx with h | h
      · exact Or.inr (by rw [dictKeys_cons]; exact h ▸ List.mem_cons_self _ _)
      · rcases ih h with h' | h'
        · exact Or.inl h'
        · exact Or.inr (by rw [dictKeys_cons]; exact List.mem_cons_of_mem _ h')

theorem dictKeys_insert_nodup {α β : Type} [DecidableEq α]
    {d : List (α × β)} (k : α) (v : β) (h : (dictKeys d).Nodup) :
    (dictKeys (dictInsert d k v)).Nodup := by
  induction d with
  | nil => simp [dictInsert, dictKeys_cons, dictKeys_nil]
  | cons q rest ih =>
    obtain ⟨k0, v0⟩ := q
    rw [dictKeys_cons, List.nodup_cons] at h
    by_cases h0 : k0 = k
    · subst h0
      rw [show dictInsert ((k0, v0) :: rest) k0 v = (k0, v) :: rest by simp [dictInsert]]
      rw [dictKeys_cons, List.nodup_cons]
      exact ⟨h.1, h.2⟩
    · have htail := ih h.2
      rw [show dictInsert ((k0, v0) :: rest) k v = (k0, v0) :: dictInsert rest k v by
          simp [dictInsert, h0]]
      rw [dictKeys_cons, List.nodup_cons]
      refine ⟨?_, htail⟩
      intro hmem
      rcases dictKeys_insert_subset rest k v k0 hmem with h' | h'
      · exact h0 h'
      · exact h.1 h'

theorem dictLookup_none_iff {α β : Type} [DecidableEq α]
    (d : List (α × β)) (k : α) :
    dictLookup d k = none ↔ k ∉ dictKeys d := by
  induction d with
  | nil => simp [dictLookup, dictKeys_nil]
  | cons q rest ih =>
    obtain ⟨k0, v0⟩ := q
    rw [dictKeys_cons]
    by_cases h0 : k0 = k
    · subst h0
      simp [dictLookup]
    · have h0' : ¬ k = k0 := fun hh => h0 hh.symm
      simp [dictLookup, h0, ih, h0']

theorem dictLookup_isSome_insert {α β : Type} [DecidableEq α]
    {d : List (α × β)} {k : α} (v : β) (hk : (dictLookup d k).isSome = true) (k' : α) :
    (dictLookup (dictInsert d k v) k').isSome = (dictLookup d k').isSome := by
  by_cases h : k' = k
  · subst h
    rw [dictLookup_insert_self]
    simp [hk]
  · rw [dictLookup_insert_ne _ _ _ _ h]

theorem dictInsert_append_of_not_mem {α β : Type} [DecidableEq α]
    {d : List (α × β)} {k : α} (v : β) (h : dictLookup d k = none) :
    dictInsert d k v = d ++ [(k, v)] := by
  induction d with
  | nil => simp [dictInsert]
  | cons q rest ih =>
    obtain ⟨k0, v0⟩ := q
    by_cases h0 : k0 = k
    · simp [dictLookup, h0] at h
    · simp only [dictLookup, h0, if_neg h0] at h
      simp [dictInsert, h0, ih h]

theorem dictUpdate_nil_of_nodup {α β : Type} [DecidableEq α]
    (d : List (α × β)) (h : (dictKeys d).Nodup) :
    dictUpdate [] d = d := by
  suffices hgen : ∀ (upd acc : List (α × β)), (dictKeys upd).Nodup →
      (∀ k ∈ dictKeys upd, dictLookup acc k = none) →
      dictUpdate acc upd = acc ++ upd by
    simpa using hgen d [] h (by intro k _; simp [dictLookup])
  intro upd
  induction upd with
  | nil => intro acc _ _; simp [dictUpdate]
  | cons p rest ih =>
    intro acc hnd hnone
    obtain ⟨k, v⟩ := p
    rw [dictKeys_cons, List.nodup_cons] at hnd
    have hk : dictLookup acc k = none := hnone k (by rw [dictKeys_cons]; exact List.mem_cons_self _ _)
    have hstep : dictInsert acc k v = acc ++ [(k, v)] := dictInsert_append_of_not_mem v hk
    have hrest : ∀ k' ∈ dictKeys rest, dictLookup (acc ++ [(k, v)]) k' = none := by
      intro k' hk'
      have hne : k' ≠ k := fun hh => hnd.1 (hh ▸ hk')
      have h1 : dictLookup acc k' = none := by
        refine hnone k' ?_
        rw [dictKeys_cons]
        exact List.mem_cons_of_mem _ hk'
      have h2 : dictLookup (dictInsert acc k v) k' = dictLookup acc k' :=
        dictLookup_insert_ne _ _ _ _ hne
      rw [hstep] at h2
      rw [h2, h1]
    have hone : dictUpdate acc ((k, v) :: rest) = dictUpdate (dictInsert acc k v) rest := rfl
    rw [hone, hstep, ih (acc ++ [(k, v)]) hnd.2 hrest]
    simp

/-! ### Rendering and parsing of numbers

`to_hex` models Python `format(value, 'X')`, `pyHex` models `hex(x)`,
`pyIntStr` models `str(n)` on a non-negative int (the form the `csv`
module writes), `hex_str_to_int` models `int(string, 16)` and
`pyParseInt` models `int(string)`.  Sign, surrounding whitespace and a
`0x` prefix are not modelled: none of the strings the script produces or
reads back use them. -/

def digitsCore (b : Nat) : Nat → Nat → List Nat
  | 0, _ => []
  | fuel + 1, n => if n < b then [n] else digitsCore b fuel (n / b) ++ [n % b]

/-- Base-`b` digits of `n`, most significant first. -/
def natDigits (b n : Nat) : List Nat := digitsCore b (n + 1) n

theorem digitsCore_stable (b : Nat) (hb : 1 < b) :
    ∀ n fuel, n < fuel → digitsCore b fuel n = natDigits b n := by
  intro n
  induction n using Nat.strong_induction_on with
  | _ n ih =>
    intro fuel hf
    cases fuel with
    | zero => omega
    | succ f =>
      unfold natDigits
      by_cases hsmall : n < b
      · simp [digitsCore, hsmall]
      · have hn : 0 < n := by omega
        have hdiv : n / b < n := Nat.div_lt_self hn hb
        have h1 : digitsCore b (f + 1) n = digitsCore b f (n / b) ++ [n % b] := by
          simp [digitsCore, hsmall]
        have h2 : digitsCore b (n + 1) n = digitsCore b n (n / b) ++ [n % b] := by
          simp [digitsCore, hsmall]
        rw [h1, h2, ih (n / b) hdiv f (by omega), ih (n / b) hdiv n (by omega)]

theorem natDigits_val (b : Nat) (hb : 1 < b) :
    ∀ n, (natDigits b n).foldl (fun a d => a * b + d) 0 = n := by
  intro n
  induction n using Nat.strong_induction_on with
  | _ n ih =>
    by_cases hsmall : n < b
    · simp [natDigits, digitsCore, hsmall]
    · have hn : 0 < n := by omega
      have hdiv : n / b < n := Nat.div_lt_self hn hb
      have h2 : natDigits b n = natDigits b (n / b) ++ [n % b] := by
        unfold natDigits
        rw [show digitsCore b (n + 1) n = digitsCore b n (n / b) ++ [n % b] by
          simp [digitsCore, hsmall]]
        rw [digitsCore_stable b hb (n / b) n (by omega)]
        rfl
      rw [h2, List.foldl_append]
      rw [ih (n / b) hdiv]
      simp only [List.foldl]
      rw [Nat.mul_comm]
      exact Nat.div_add_mod n b

theorem natDigits_lt (b : Nat) (hb : 1 < b) :
    ∀ n, ∀ d ∈ natDigits b n, d < b := by
  intro n
  induction n using Nat.strong_induction_on with
  | _ n ih =>
    intro d hd
    by_cases hsmall : n < b
    · simp [natDigits, digitsCore, hsmall] at hd
      omega
    · have hn : 0 < n := by omega
      have hdiv : n / b < n := Nat.div_lt_self hn hb
      have h2 : natDigits b n = natDigits b (n / b) ++ [n % b] := by
        unfold natDigits
        rw [show digitsCore b (n + 1) n = digitsCore b n (n / b) ++ [n % b] by
          simp [digitsCore, hsmall]]
        rw [digitsCore_stable b hb (n / b) n (by omega)]
        rfl
      rw [h2] at hd
      rcases List.mem_append.mp hd with h | h
      · exact ih (n / b) hdiv d h
      · have : d = n % b := by simpa using h
        subst this
        exact Nat.mod_lt n (by omega)

theorem natDigits_ne_nil (b n : Nat) : natDigits b n ≠ [] := by
  unfold natDigits
  by_cases hsmall : n < b
  · simp [digitsCore, hsmall]
  · simp [digitsCore, hsmall]

/-- Upper-case hexadecimal digit, as produced by `format(v, 'X')`. -/
def hexDigitCharUpper (d : Nat) : Char :=
  if d < 10 then Char.ofNat ('0'.toNat + d)
  else if d < 16 then Char.ofNat ('A'.toNat + (d - 10))
  else '0'

/-- Lower-case hexadecimal digit, as produced by `hex(x)`. -/
def hexDigitCharLower (d : Nat) : Char :=
  if d < 10 then Char.ofNat ('0'.toNat + d)
  else if d < 16 then Char.ofNat ('a'.toNat + (d - 10))
  else '0'

def decDigitChar (d : Nat) : Char :=
  if d < 10 then Char.ofNat ('0'.toNat + d) else '0'

/-- Value of a hexadecimal digit character (either case), as accepted by
`int(string, 16)`. -/
def charHexVal (c : Char) : Option Nat :=
  if '0' ≤ c ∧ c ≤ '9' then some (c.toNat - '0'.toNat)
  else if 'a' ≤ c ∧ c ≤ 'f' then some (c.toNat - 'a'.toNat + 10)
  else if 'A' ≤ c ∧ c ≤ 'F' then some (c.toNat - 'A'.toNat + 10)
  else none

/-- Value of a decimal digit character, as accepted by `int(string)`. -/
def charDecVal (c : Char) : Option Nat :=
  if '0' ≤ c ∧ c ≤ '9' then some (c.toNat - '0'.toNat) else none

theorem charHexVal_upper (d : Nat) (hd : d < 16) :
    charHexVal (hexDigitCharUpper d) = some d := by
  revert hd
  revert d
  decide

theorem charHexVal_lower (d : Nat) (hd : d < 16) :
    charHexVal (hexDigitCharLower d) = some d := by
  revert hd
  revert d
  decide

theorem charDecVal_char (d : Nat) (hd : d < 10) :
    charDecVal (decDigitChar d) = some d := by
  revert hd
  revert d
  decide

theorem hexDigitCharUpper_ne_hash (d : Nat) (hd : d < 16) :
    hexDigitCharUpper d ≠ '#' := by
  revert hd
  revert d
  decide

def parseHexAux : List Char → Nat → Option Nat
  | [], acc => some acc
  | c :: rest, acc =>
    match charHexVal c with
    | some d => parseHexAux rest (acc * 16 + d)
    | none => none

/-- `int(string, 16)`; `none` models the `ValueError` raised on malformed input. -/
def hex_str_to_int (s : String) : Option Nat :=
  match s.toList with
  | [] => none
  | c :: rest => parseHexAux (c :: rest) 0

def parseDecAux : List Char → Nat → Option Nat
  | [], acc => some acc
  | c :: rest, acc =>
    match charDecVal c with
    | some d => parseDecAux rest (acc * 10 + d)
    | none => none

/-- `int(string)`; `none` models the `ValueError` raised on malformed input. -/
def pyParseInt (s : String) : Option Nat :=
  match s.toList with
  | [] => none
  | c :: rest => parseDecAux (c :: rest) 0

/-- `to_hex(value)`, i.e. `format(value, 'X')`. -/
def to_hex (n : Nat) : String := String.mk ((natDigits 16 n).map hexDigitCharUpper)

/-- Python `hex(x)`: `0x` followed by lower-case digits. -/
def pyHex (n : Nat) : String :=
  "0x" ++ String.mk ((natDigits 16 n).map hexDigitCharLower)

/-- `str(n)` for a non-negative int. -/
def pyIntStr (n : Nat) : String := String.mk ((natDigits 10 n).map decDigitChar)

theorem parseHexAux_digits :
    ∀ (ds : List Nat) (acc : Nat), (∀ d ∈ ds, d < 16) →
      parseHexAux (ds.map hexDigitCharUpper) acc =
        some (ds.foldl (fun a d => a * 16 + d) acc) := by
  intro ds
  induction ds with
  | nil => intro acc _; simp [parseHexAux]
  | cons d rest ih =>
    intro acc hlt
    have hd : d < 16 := hlt d (List.mem_cons_self _ _)
    simp only [List.map_cons, parseHexAux, charHexVal_upper d hd, List.foldl_cons]
    exact ih (acc * 16 + d) (fun x hx => hlt x (List.mem_cons_of_mem _ hx))

theorem parseDecAux_digits :
    ∀ (ds : List Nat) (acc : Nat), (∀ d ∈ ds, d < 10) →
      parseDecAux (ds.map decDigitChar) acc =
        some (ds.foldl (fun a d => a * 10 + d) acc) := by
  intro ds
  induction ds with
  | nil => intro acc _; simp [parseDecAux]
  | cons d rest ih =>
    intro acc hlt
    have hd : d < 10 := hlt d (List.mem_cons_self _ _)
    simp only [List.map_cons, parseDecAux, charDecVal_char d hd, List.foldl_cons]
    exact ih (acc * 10 + d) (fun x hx => hlt x (List.mem_cons_of_mem _ hx))

theorem toList_mk (l : List Char) : (String.mk l).toList = l := rfl

/-- Round trip: the reader recovers exactly the hex number the writer wrote. -/
theorem hex_str_to_int_to_hex (n : Nat) : hex_str_to_int (to_hex n) = some n := by
  unfold hex_str_to_int to_hex
  rw [toList_mk]
  obtain ⟨c, cs, hcons⟩ := List.exists_cons_of_ne_nil
    (show (natDigits 16 n).map hexDigitCharUpper ≠ [] by
      simp [natDigits_ne_nil 16 n])
  rw [hcons]
  show parseHexAux (c :: cs) 0 = some n
  rw [← hcons]
  rw [parseHexAux_digits (natDigits 16 n) 0 (natDigits_lt 16 (by omega) n)]
  rw [natDigits_val 16 (by omega) n]

/-- Round trip: the reader recovers exactly the decimal number the writer wrote. -/
theorem pyParseInt_pyIntStr (n : Nat) : pyParseInt (pyIntStr n) = some n := by
  unfold pyParseInt pyIntStr
  rw [toList_mk]
  obtain ⟨c, cs, hcons⟩ := List.exists_cons_of_ne_nil
    (show (natDigits 10 n).map decDigitChar ≠ [] by
      simp [natDigits_ne_nil 10 n])
  rw [hcons]
  show parseDecAux (c :: cs) 0 = some n
  rw [← hcons]
  rw [parseDecAux_digits (natDigits 10 n) 0 (natDigits_lt 10 (by omega) n)]
  rw [natDigits_val 10 (by omega) n]

/-- `row[0].startswith('#')`. -/
def pyStartsWithHash (s : String) : Bool :=
  match s.toList with
  | [] => false
  | c :: _ => c == '#'

theorem pyStartsWithHash_to_hex (n : Nat) : pyStartsWithHash (to_hex n) = false := by
  unfold pyStartsWithHash to_hex
  rw [toList_mk]
  obtain ⟨d, ds, hcons⟩ := List.exists_cons_of_ne_nil (natDigits_ne_nil 16 n)
  have hd : d < 16 := by
    refine natDigits_lt 16 (by omega) n d ?_
    rw [hcons]
    exact List.mem_cons_self _ _
  rw [hcons]
  simp only [List.map_cons]
  have : hexDigitCharUpper d ≠ '#' := hexDigitCharUpper_ne_hash d hd
  simpa using this

/-! ### Constants and the `_EmojiData` record (`createfont.py`) -/

/-- Codepoints rendered emoji-style by default even though `emoji-data.txt`
does not say so (`EMOJI_STYLE_EXCEPTIONS`). -/
def EMOJI_STYLE_EXCEPTIONS : List Nat :=
  [0x2600, 0x2601, 0x260e, 0x261d, 0x263a, 0x2660,
   0x2663, 0x2665, 0x2666, 0x270c, 0x2744, 0x2764]

/-- Start of the Supplemental Private Use Area-A id range (`DEFAULT_EMOJI_ID`). -/
def DEFAULT_EMOJI_ID : Nat := 0xF0001

/-- The emoji-style variation selector (`EMOJI_STYLE_VS`). -/
def EMOJI_STYLE_VS : Nat := 0xFE0F

def SDK_VERSION : Nat := 25

def METADATA_VERSION : Nat := 1

/-- `codepoint_to_string(codepoints)`: identity key of an entry,
`' '.join([hex(x) for x in codepoints])`. -/
def codepoint_to_string (codepoints : List Nat) : String :=
  String.intercalate " " (codepoints.map pyHex)

/-- `_EmojiData.__init__`: field order and defaults follow the constructor. -/
structure _EmojiData where
  codepoints : List Nat
  emoji_style : Bool
  emoji_id : Nat
  width : Nat
  height : Nat
  sdk_added : Nat
  compat_added : Nat
deriving DecidableEq, Repr

/-- A fresh `_EmojiData(codepoints, is_emoji_style)`. -/
def _EmojiData.init (codepoints : List Nat) (is_emoji_style : Bool) : _EmojiData :=
  { codepoints := codepoints
    emoji_style := is_emoji_style
    emoji_id := 0
    width := 0
    height := 0
    sdk_added := SDK_VERSION
    compat_added := METADATA_VERSION }

/-- Glyph metrics decoded from the CBDT strike data. -/
structure GlyphMetrics where
  width : Nat
  height : Nat
deriving DecidableEq, Repr

/-- `_EmojiData.update_metrics(metrics)`. -/
def _EmojiData.update_metrics (e : _EmojiData) (metrics : GlyphMetrics) : _EmojiData :=
  { e with width := metrics.width, height := metrics.height }

/-- `_EmojiData.update(emoji_id, sdk_added, compat_added)`. -/
def _EmojiData.update (e : _EmojiData) (emoji_id sdk_added compat_added : Nat) : _EmojiData :=
  { e with emoji_id := emoji_id, sdk_added := sdk_added, compat_added := compat_added }

/-- One element of the JSON `list` produced by `create_json_element`. -/
structure JsonElement where
  id : Nat
  emojiStyle : Bool
  sdkAdded : Nat
  compatAdded : Nat
  width : Nat
  height : Nat
  codepoints : List Nat
deriving DecidableEq, Repr

/-- `_EmojiData.create_json_element()`. -/
def _EmojiData.create_json_element (e : _EmojiData) : JsonElement :=
  { id := e.emoji_id
    emojiStyle := e.emoji_style
    sdkAdded := e.sdk_added
    compatAdded := e.compat_added
    width := e.width
    height := e.height
    codepoints := e.codepoints }

/-- `_EmojiData.create_txt_row()`: `[to_hex(id), sdk, compat] + hex codepoints`
(the `csv` module renders the two int cells with `str`). -/
def _EmojiData.create_txt_row (e : _EmojiData) : List String :=
  to_hex e.emoji_id :: pyIntStr e.sdk_added :: pyIntStr e.compat_added ::
    e.codepoints.map to_hex

/-- The registry: map from identity key to entry, in insertion order. -/
def EmojiMap : Type := List (String × _EmojiData)

instance : DecidableEq EmojiMap := by
  unfold EmojiMap
  infer_instance

instance : Repr EmojiMap := by
  unfold EmojiMap
  infer_instance

instance : Membership (String × _EmojiData) EmojiMap := by
  unfold EmojiMap
  infer_instance

/-! ### Unicode source readers

A line of the interval grammar `CP1[..CP2] ; PROPERTY # comment` is
modelled after `read_emoji_intervals` has split it: the range bounds are
already parsed from hex and `property` is the trimmed, upper-cased field
between `;` and `#`.  A line of the sequence grammar is the list of
code points parsed from the text before the first `;`. -/

structure IntervalLine where
  rangeStart : Nat
  rangeEnd : Option Nat
  property : String
deriving DecidableEq, Repr

/-- The codepoint list a line expands to: `range(start, end + 1)` for
`CP1..CP2`, else the single codepoint. -/
def expandIntervalLine (line : IntervalLine) : List Nat :=
  match line.rangeEnd with
  | none => [line.rangeStart]
  | some e => List.range' line.rangeStart (e + 1 - line.rangeStart)

/-- Body of the `for codepoint in codepoints` loop of `read_emoji_intervals`:
`codepoint_is_emoji_style` is `is_emoji_style or codepoint in EMOJI_STYLE_EXCEPTIONS`. -/
def intervalCpStep (m : EmojiMap) (is_emoji_style : Bool) (codepoint : Nat) : EmojiMap :=
  match dictLookup m (codepoint_to_string [codepoint]) with
  | some emoji_data =>
    if is_emoji_style || decide (codepoint ∈ EMOJI_STYLE_EXCEPTIONS) then
      dictInsert m (codepoint_to_string [codepoint]) { emoji_data with emoji_style := true }
    else m
  | none =>
    dictInsert m (codepoint_to_string [codepoint])
      (_EmojiData.init [codepoint]
        (is_emoji_style || decide (codepoint ∈ EMOJI_STYLE_EXCEPTIONS)))

/-- Body of the `for line in lines` loop of `read_emoji_intervals`;
`is_emoji_style` is `emoji_property == 'EMOJI_PRESENTATION'`. -/
def processIntervalLine (m : EmojiMap) (line : IntervalLine) : EmojiMap :=
  (expandIntervalLine line).foldl
    (fun m cp => intervalCpStep m (decide (line.property = "EMOJI_PRESENTATION")) cp) m

/-- `read_emoji_intervals(emoji_data_map, file_path)`. -/
def read_emoji_intervals (m : EmojiMap) (lines : List IntervalLine) : EmojiMap :=
  lines.foldl processIntervalLine m

/-- `[x for x in codepoints if x != EMOJI_STYLE_VS]`. -/
def stripVS (codepoints : List Nat) : List Nat :=
  codepoints.filter fun x => decide (x ≠ EMOJI_STYLE_VS)

/-- Body of the `for line in lines` loop of `read_emoji_sequences`. -/
def seqLineStep (m : EmojiMap) (lineCodepoints : List Nat) : EmojiMap :=
  match dictLookup m (codepoint_to_string (stripVS lineCodepoints)) with
  | some _ => m
  | none =>
    dictInsert m (codepoint_to_string (stripVS lineCodepoints))
      (_EmojiData.init (stripVS lineCodepoints) false)

/-- `read_emoji_sequences(emoji_data_map, file_path)`. -/
def read_emoji_sequences (m : EmojiMap) (lines : List (List Nat)) : EmojiMap :=
  lines.foldl seqLineStep m

/-- `load_emoji_data_map(unicode_path)`: intervals from `emoji-data.txt`,
then sequences from `emoji-zwj-sequences.txt`, `emoji-sequences.txt` and,
when the file exists, `android-emoji-data.txt`. -/
def load_emoji_data_map (dataLines : List IntervalLine)
    (zwjLines seqLines : List (List Nat))
    (androidLines : Option (List (List Nat))) : EmojiMap :=
  match androidLines with
  | none =>
    read_emoji_sequences (read_emoji_sequences (read_emoji_intervals [] dataLines) zwjLines)
      seqLines
  | some lines =>
    read_emoji_sequences
      (read_emoji_sequences (read_emoji_sequences (read_emoji_intervals [] dataLines) zwjLines)
        seqLines) lines

/-! ### `load_previous_metadata` -/

/-- Parse one non-comment snapshot row:
`int(row[0], 16)`, `int(row[1])`, `int(row[2])`, `[int(x, 16) for x in row[3:]]`,
with `IndexError` for a missing cell and `ValueError` for a malformed one. -/
def rowParseE : List String → Except PyError (Nat × Nat × Nat × List Nat)
  | [] => .error .indexError
  | c0 :: rest =>
    match hex_str_to_int c0 with
    | none => .error .valueError
    | some emoji_id =>
      match rest with
      | [] => .error .indexError
      | c1 :: rest2 =>
        match pyParseInt c1 with
        | none => .error .valueError
        | some sdk_added =>
          match rest2 with
          | [] => .error .indexError
          | c2 :: cps =>
            match pyParseInt c2, cps.mapM hex_str_to_int with
            | some compat_added, some codepoints =>
              .ok (emoji_id, sdk_added, compat_added, codepoints)
            | _, _ => .error .valueError

/-- Processing of a single snapshot row inside the `for row in reader`
loop: skip comments, parse, and update the matching entry and the running
counter. -/
def load_rows_step (m : EmojiMap) (current_emoji_id : Nat) (row : List String) :
    Except PyError (EmojiMap × Nat) :=
  match row with
  | [] => .error .indexError
  | c0 :: _ =>
    if pyStartsWithHash c0 then .ok (m, current_emoji_id)
    else
      match rowParseE row with
      | .error e => .error e
      | .ok (emoji_id, sdk_added, compat_added, codepoints) =>
        match dictLookup m (codepoint_to_string codepoints) with
        | some emoji_data =>
          .ok (dictInsert m (codepoint_to_string codepoints)
              (emoji_data.update emoji_id sdk_added compat_added),
            if current_emoji_id ≤ emoji_id then emoji_id + 1 else current_emoji_id)
        | none => .ok (m, current_emoji_id)

/-- The `for row in reader` loop of `load_previous_metadata`. -/
def load_rows (m : EmojiMap) (current_emoji_id : Nat) :
    List (List String) → Except PyError (EmojiMap × Nat)
  | [] => .ok (m, current_emoji_id)
  | row :: rest =>
    match load_rows_step m current_emoji_id row with
    | .error e => .error e
    | .ok (m', cur') => load_rows m' cur' rest

/-- `load_previous_metadata(emoji_data_map)`.  `none` is an absent
`emoji_metadata.txt`; otherwise the parsed space-separated rows. -/
def load_previous_metadata (rows : Option (List (List String))) (m : EmojiMap) :
    Except PyError (EmojiMap × Nat) :=
  match rows with
  | none => .ok (m, DEFAULT_EMOJI_ID)
  | some rows => load_rows m DEFAULT_EMOJI_ID rows

/-- Ids of the snapshot rows that are not comments, parse, and whose key is
present in the registry: exactly the rows for which `load_previous_metadata`
bumps its counter. -/
def matchedIds (m : EmojiMap) (rows : List (List String)) : List Nat :=
  rows.filterMap fun row =>
    match row with
    | [] => none
    | c0 :: _ =>
      if pyStartsWithHash c0 then none
      else
        match rowParseE row with
        | .ok (emoji_id, _, _, codepoints) =>
          if (dictLookup m (codepoint_to_string codepoints)).isSome then some emoji_id
          else none
        | .error _ => none

/-! ### Python `sorted` (stable sort)

`sorted(values, key=lambda x: x.emoji_id)` is modelled by a stable
insertion sort: each element is inserted after all earlier elements whose
key is less than or equal, which characterises every stable sort. -/

def pyInsert {α : Type} (le : α → α → Bool) (x : α) : List α → List α
  | [] => [x]
  | y :: ys => if le y x then y :: pyInsert le x ys else x :: y :: ys

def pySorted {α : Type} (le : α → α → Bool) (l : List α) : List α :=
  l.foldl (fun acc x => pyInsert le x acc) []

theorem pyInsert_perm {α : Type} (le : α → α → Bool) (x : α) (l : List α) :
    List.Perm (pyInsert le x l) (x :: l) := by
  induction l with
  | nil => simp [pyInsert]
  | cons y ys ih =>
    by_cases h : le y x
    · simp only [pyInsert, h, if_pos]
      exact (ih.cons y).trans (List.Perm.swap x y ys)
    · simp [pyInsert, h]

theorem pySorted_perm {α : Type} (le : α → α → Bool) (l : List α) :
    List.Perm (pySorted le l) l := by
  suffices hgen : ∀ (l acc : List α),
      List.Perm (l.foldl (fun acc x => pyInsert le x acc) acc) (acc ++ l) by
    simpa using hgen l []
  intro l
  induction l with
  | nil => intro acc; simp
  | cons x xs ih =>
    intro acc
    have h1 : List.Perm (xs.foldl (fun acc x => pyInsert le x acc) (pyInsert le x acc))
        (pyInsert le x acc ++ xs) := ih (pyInsert le x acc)
    have h2 : List.Perm (pyInsert le x acc ++ xs) ((x :: acc) ++ xs) :=
      (pyInsert_perm le x acc).append_right xs
    have h3 : List.Perm ((x :: acc) ++ xs) (acc ++ x :: xs) := by
      have hmid : List.Perm (acc ++ x :: xs) (x :: (acc ++ xs)) := List.perm_middle
      simpa using hmid.symm
    exact (h1.trans h2).trans h3

theorem pyInsert_pairwise {α : Type} (le : α → α → Bool)
    (htrans : ∀ a b c, le a b = true → le b c = true → le a c = true)
    (htot : ∀ a b, le a b = true ∨ le b a = true)
    (x : α) (l : List α) (h : l.Pairwise (fun a b => le a b = true)) :
    (pyInsert le x l).Pairwise (fun a b => le a b = true) := by
  induction l with
  | nil => simp [pyInsert]
  | cons y ys ih =>
    rw [List.pairwise_cons] at h
    by_cases hle : le y x
    · simp only [pyInsert, hle, if_pos]
      rw [List.pairwise_cons]
      refine ⟨?_, ih h.2⟩
      intro z hz
      have hz2 : z ∈ x :: ys := (pyInsert_perm le x ys).mem_iff.mp hz
      rcases List.mem_cons.mp hz2 with hz' | hz'
      · exact hz' ▸ hle
      · exact h.1 z hz'
    · have hxy : le x y = true := by
        rcases htot x y with h' | h'
        · exact h'
        · exact absurd h' hle
      simp only [pyInsert, hle]
      rw [if_neg (by simp), List.pairwise_cons]
      refine ⟨?_, List.pairwise_cons.mpr h⟩
      intro z hz
      rcases List.mem_cons.mp hz with hz' | hz'
      · exact hz' ▸ hxy
      · exact htrans x y z hxy (h.1 z hz')

theorem pySorted_pairwise {α : Type} (le : α → α → Bool)
    (htrans : ∀ a b c, le a b = true → le b c = true → le a c = true)
    (htot : ∀ a b, le a b = true ∨ le b a = true)
    (l : List α) : (pySorted le l).Pairwise (fun a b => le a b = true) := by
  suffices hgen : ∀ (l acc : List α), acc.Pairwise (fun a b => le a b = true) →
      (l.foldl (fun acc x => pyInsert le x acc) acc).Pairwise (fun a b => le a b = true) by
    exact hgen l [] (by simp)
  intro l
  induction l with
  | nil => intro acc h; simpa using h
  | cons x xs ih =>
    intro acc h
    exact ih (pyInsert le x acc) (pyInsert_pairwise le htrans htot x acc h)

/-! ### `EmojiFontCreator` state and the font walk -/

/-- The mutable state of an `EmojiFontCreator` used by the core algorithm:
`emoji_data_map`, `remapped_codepoints`, `glyph_to_image_metrics_map`
(filled by `read_cbdt`) and the running `emoji_id` counter. -/
structure CreatorState where
  emoji_data_map : EmojiMap
  remapped_codepoints : List (Nat × String)
  glyph_to_image_metrics_map : List (String × GlyphMetrics)
  emoji_id : Nat
deriving DecidableEq, Repr

/-- `EmojiFontCreator.update_emoji_data(codepoints, glyph_name)`.
The metrics lookup `self.glyph_to_image_metrics_map[glyph_name]` raises
`KeyError` when the glyph has no CBDT record. -/
def update_emoji_data (st : CreatorState) (codepoints : List Nat) (glyph_name : String) :
    Except PyError CreatorState :=
  match dictLookup st.emoji_data_map (codepoint_to_string codepoints) with
  | none => .ok st
  | some emoji_data =>
    match dictLookup st.glyph_to_image_metrics_map glyph_name with
    | none => .error .keyError
    | some metrics =>
      if (emoji_data.update_metrics metrics).emoji_id = 0 then
        .ok { st with
              emoji_data_map := dictInsert st.emoji_data_map (codepoint_to_string codepoints)
                { emoji_data.update_metrics metrics with emoji_id := st.emoji_id }
              remapped_codepoints :=
                dictInsert st.remapped_codepoints st.emoji_id glyph_name
              emoji_id := st.emoji_id + 1 }
      else
        .ok { st with
              emoji_data_map := dictInsert st.emoji_data_map (codepoint_to_string codepoints)
                (emoji_data.update_metrics metrics)
              remapped_codepoints := dictInsert st.remapped_codepoints
                (emoji_data.update_metrics metrics).emoji_id glyph_name
              emoji_id := st.emoji_id }

/-- One cmap subtable: `format`, `platformID`, `platEncID` and the
codepoint-to-glyph-name mapping, in iteration order. -/
structure CmapTable where
  format : Nat
  platformID : Nat
  platEncID : Nat
  cmap : List (Nat × String)
deriving DecidableEq, Repr

/-- The `for codepoint, glyph_name in table.cmap.iteritems()` loop of
`read_and_clear_cmap12`. -/
def processCmapPairs (st : CreatorState) (glyph_to_codepoint_map : List (String × Nat)) :
    List (Nat × String) → Except PyError (CreatorState × List (String × Nat))
  | [] => .ok (st, glyph_to_codepoint_map)
  | (codepoint, glyph_name) :: rest =>
    match update_emoji_data st [codepoint] glyph_name with
    | .error e => .error e
    | .ok st' =>
      processCmapPairs st' (dictInsert glyph_to_codepoint_map glyph_name codepoint) rest

/-- `EmojiFontCreator.read_and_clear_cmap12(ttf, glyph_to_codepoint_map)`:
walk the first cmap subtable with format 12, platformID 3, platEncID 10,
clear it and return it; raise `ValueError` when there is none. -/
def read_and_clear_cmap12 (st : CreatorState) (glyph_to_codepoint_map : List (String × Nat)) :
    List CmapTable → Except PyError (CreatorState × List (String × Nat) × CmapTable)
  | [] => .error .valueError
  | table :: rest =>
    if table.format = 12 ∧ table.platformID = 3 ∧ table.platEncID = 10 then
      match processCmapPairs st glyph_to_codepoint_map table.cmap with
      | .error e => .error e
      | .ok (st', g2c) => .ok (st', g2c, { table with cmap := [] })
    else read_and_clear_cmap12 st glyph_to_codepoint_map rest

/-- One GSUB ligature rule: component glyphs and the resulting glyph. -/
structure Ligature where
  Component : List String
  LigGlyph : String
deriving DecidableEq, Repr

/-- A GSUB subtable: `ligatures` maps a first glyph name to its rules. -/
structure LigatureSubtable where
  ligatures : List (String × List Ligature)
deriving DecidableEq, Repr

/-- A GSUB lookup: a list of subtables. -/
structure GsubLookup where
  SubTable : List LigatureSubtable
deriving DecidableEq, Repr

/-- `[glyph_to_codepoint_map[x] for x in glyph_names]`: raises `KeyError`
at the first missing glyph name. -/
def lookupGlyphs (glyph_to_codepoint_map : List (String × Nat)) :
    List String → Except PyError (List Nat)
  | [] => .ok []
  | name :: rest =>
    match dictLookup glyph_to_codepoint_map name with
    | none => .error .keyError
    | some cp =>
      match lookupGlyphs glyph_to_codepoint_map rest with
      | .error e => .error e
      | .ok cps => .ok (cp :: cps)

/-- The `for ligature in ligatures` loop of `read_and_clear_gsub`. -/
def processLigatureList (st : CreatorState) (glyph_to_codepoint_map : List (String × Nat))
    (name : String) : List Ligature → Except PyError CreatorState
  | [] => .ok st
  | ligature :: rest =>
    match lookupGlyphs glyph_to_codepoint_map (name :: ligature.Component) with
    | .error e => .error e
    | .ok codepoints =>
      match update_emoji_data st codepoints ligature.LigGlyph with
      | .error e => .error e
      | .ok st' => processLigatureList st' glyph_to_codepoint_map name rest

/-- The `for name, ligatures in subtable.ligatures.iteritems()` loop. -/
def processSubtable (st : CreatorState) (glyph_to_codepoint_map : List (String × Nat)) :
    List (String × List Ligature) → Except PyError CreatorState
  | [] => .ok st
  | (name, ligatures) :: rest =>
    match processLigatureList st glyph_to_codepoint_map name ligatures with
    | .error e => .error e
    | .ok st' => processSubtable st' glyph_to_codepoint_map rest

/-- The `for subtable in lookup.SubTable` loop. -/
def processSubtables (st : CreatorState) (glyph_to_codepoint_map : List (String × Nat)) :
    List LigatureSubtable → Except PyError CreatorState
  | [] => .ok st
  | subtable :: rest =>
    match processSubtable st glyph_to_codepoint_map subtable.ligatures with
    | .error e => .error e
    | .ok st' => processSubtables st' glyph_to_codepoint_map rest

/-- `EmojiFontCreator.read_and_clear_gsub(ttf, glyph_to_codepoint_map)`. -/
def read_and_clear_gsub (st : CreatorState) (glyph_to_codepoint_map : List (String × Nat)) :
    List GsubLookup → Except PyError CreatorState
  | [] => .ok st
  | lookup :: rest =>
    match processSubtables st glyph_to_codepoint_map lookup.SubTable with
    | .error e => .error e
    | .ok st' => read_and_clear_gsub st' glyph_to_codepoint_map rest

/-- Every glyph name `read_and_clear_gsub` resolves through
`glyph_to_codepoint_map`: for each ligature rule, the dict key `name` it
hangs under followed by its `Component` list. -/
def ligatureListNames (name : String) : List Ligature → List String
  | [] => []
  | ligature :: rest => (name :: ligature.Component) ++ ligatureListNames name rest

def subtableNames (subtable : LigatureSubtable) : List String :=
  subtable.ligatures.foldr (fun p acc => ligatureListNames p.1 p.2 ++ acc) []

def lookupNames (lookup : GsubLookup) : List String :=
  lookup.SubTable.foldr (fun s acc => subtableNames s ++ acc) []

def gsubGlyphNames (lookups : List GsubLookup) : List String :=
  lookups.foldr (fun l acc => lookupNames l ++ acc) []

/-! ### Metadata emitters -/

def emojiDataLe (a b : _EmojiData) : Bool := decide (a.emoji_id ≤ b.emoji_id)

/-- `sorted(self.emoji_data_map.values(), key=lambda x: x.emoji_id)`. -/
def sortedEmojiDataList (m : EmojiMap) : List _EmojiData :=
  pySorted emojiDataLe (dictValues m)

/-- `EmojiFontCreator.write_metadata_json(...)`: the `list` of the emitted
JSON document and the returned `total_emoji_count`. -/
def write_metadata_json (m : EmojiMap) : List JsonElement × Nat :=
  ((sortedEmojiDataList m).map _EmojiData.create_json_element,
    (sortedEmojiDataList m).length)

def csvHeaderRow : List String := ["#id", "sdkAdded", "compatAdded", "codepoints"]

/-- `EmojiFontCreator.write_metadata_csv()`: the rows of the emitted
space-separated file. -/
def write_metadata_csv (m : EmojiMap) : List (List String) :=
  csvHeaderRow :: (sortedEmojiDataList m).map _EmojiData.create_txt_row

/-- The font-walk portion of `create_font`: `read_and_clear_cmap12`,
`read_and_clear_gsub`, then `cmap12_table.cmap.update(self.remapped_codepoints)`.
Returns the final creator state and the refilled cmap12 contents. -/
def fontWalkCore (st : CreatorState) (cmapTables : List CmapTable)
    (gsubLookups : List GsubLookup) :
    Except PyError (CreatorState × List (Nat × String)) :=
  match read_and_clear_cmap12 st [] cmapTables with
  | .error e => .error e
  | .ok (st1, g2c, cmap12_table) =>
    match read_and_clear_gsub st1 g2c gsubLookups with
    | .error e => .error e
    | .ok st2 => .ok (st2, dictUpdate cmap12_table.cmap st2.remapped_codepoints)

/-! ### Lemmas about `update_emoji_data` -/

/-- `update_emoji_data` can only raise `KeyError` (for a glyph without
CBDT metrics), never `ValueError`. -/
theorem update_emoji_data_error (st : CreatorState) (cps : List Nat) (g : String)
    (e : PyError) (h : update_emoji_data st cps g = .error e) : e = .keyError := by
  unfold update_emoji_data at h
  cases hm : dictLookup st.emoji_data_map (codepoint_to_string cps) with
  | none => rw [hm] at h; simp at h
  | some ed =>
    rw [hm] at h
    cases hg : dictLookup st.glyph_to_image_metrics_map g with
    | none =>
      rw [hg] at h
      simp at h
      exact h.symm
    | some mt =>
      rw [hg] at h
      by_cases hid : (ed.update_metrics mt).emoji_id = 0
      · simp [hid] at h
      · simp [hid] at h

/-- A call on a key that is absent from the registry is a no-op. -/
theorem update_emoji_data_absent (st : CreatorState) (cps : List Nat) (g : String)
    (h : dictLookup st.emoji_data_map (codepoint_to_string cps) = none) :
    update_emoji_data st cps g = .ok st := by
  unfold update_emoji_data
  rw [h]

/-- A successful `update_emoji_data` call modifies no registry entry other
than the one keyed by its own codepoints. -/
theorem update_emoji_data_other_keys (st : CreatorState) (cps : List Nat) (g : String)
    (st' : CreatorState) (k : String) (h : update_emoji_data st cps g = .ok st')
    (hk : k ≠ codepoint_to_string cps) :
    dictLookup st'.emoji_data_map k = dictLookup st.emoji_data_map k := by
  unfold update_emoji_data at h
  cases hm : dictLookup st.emoji_data_map (codepoint_to_string cps) with
  | none =>
    rw [hm] at h
    simp at h
    rw [← h]
  | some ed =>
    rw [hm] at h
    cases hg : dictLookup st.glyph_to_image_metrics_map g with
    | none => rw [hg] at h; simp at h
    | some mt =>
      rw [hg] at h
      by_cases hid : (ed.update_metrics mt).emoji_id = 0
      · simp only [hid, if_pos] at h
        injection h with h
        rw [← h]
        exact dictLookup_insert_ne _ _ _ _ hk
      · simp only [hid, if_neg hid] at h
        injection h with h
        rw [← h]
        exact dictLookup_insert_ne _ _ _ _ hk

/-- Effect of a successful `update_emoji_data` on its own entry: the
metrics of `glyph_name` are written unconditionally (so a later call with
another glyph overwrites them) while a non-zero id is never changed. -/
theorem update_emoji_data_self (st : CreatorState) (cps : List Nat) (g : String)
    (st' : CreatorState) (ed : _EmojiData)
    (hm : dictLookup st.emoji_data_map (codepoint_to_string cps) = some ed)
    (h : update_emoji_data st cps g = .ok st') :
    ∃ mt, dictLookup st.glyph_to_image_metrics_map g = some mt ∧
      dictLookup st'.emoji_data_map (codepoint_to_string cps) =
        some { ed with
               width := mt.width
               height := mt.height
               emoji_id := if ed.emoji_id = 0 then st.emoji_id else ed.emoji_id } := by
  unfold update_emoji_data at h
  rw [hm] at h
  cases hg : dictLookup st.glyph_to_image_metrics_map g with
  | none => rw [hg] at h; simp at h
  | some mt =>
    rw [hg] at h
    refine ⟨mt, rfl, ?_⟩
    by_cases hid : (ed.update_metrics mt).emoji_id = 0
    · have hid2 : ed.emoji_id = 0 := hid
      rw [if_pos hid2]
      simp only [hid, if_pos] at h
      injection h with h
      subst h
      simp only [dictLookup_insert_self]
      rfl
    · have hid2 : ¬ ed.emoji_id = 0 := hid
      rw [if_neg hid2]
      simp only [hid, if_neg hid] at h
      injection h with h
      subst h
      simp only [dictLookup_insert_self]
      rfl

/-! ### Claim C3 -/

/-- A state as `create_font` reaches the font walk: one single-codepoint
entry, two glyphs with different CBDT metrics. -/
def c3st0 : CreatorState :=
  { emoji_data_map := [("0x1", _EmojiData.init [1] false)]
    remapped_codepoints := []
    glyph_to_image_metrics_map := [("g1", ⟨1, 2⟩), ("g2", ⟨3, 4⟩)]
    emoji_id := 10 }

/-- `c3st0` after correlating entry `[0x1]` with glyph `g1`. -/
def c3st1 : CreatorState :=
  { emoji_data_map := [("0x1", ⟨[1], false, 10, 1, 2, 25, 1⟩)]
    remapped_codepoints := [(10, "g1")]
    glyph_to_image_metrics_map := [("g1", ⟨1, 2⟩), ("g2", ⟨3, 4⟩)]
    emoji_id := 11 }

/-- `c3st1` after a second correlation of the same entry with glyph `g2`. -/
def c3st2 : CreatorState :=
  { emoji_data_map := [("0x1", ⟨[1], false, 10, 3, 4, 25, 1⟩)]
    remapped_codepoints := [(10, "g2")]
    glyph_to_image_metrics_map := [("g1", ⟨1, 2⟩), ("g2", ⟨3, 4⟩)]
    emoji_id := 11 }

/-- Claim C3, counterexample.  The claim says the first writer wins for
width, height and id, and that a later `update_emoji_data` call for the
same entry changes none of those fields.  On this concrete run the second
call (same entry `[0x1]`, different glyph `g2`) keeps the id 10 but
overwrites width/height from (1, 2) to (3, 4): `update_metrics` runs
unconditionally on every call, only the id is first-writer-wins. -/
theorem c3_counterexample :
    update_emoji_data c3st0 [1] "g1" = .ok c3st1 ∧
    update_emoji_data c3st1 [1] "g2" = .ok c3st2 ∧
    dictLookup c3st1.emoji_data_map "0x1" = some ⟨[1], false, 10, 1, 2, 25, 1⟩ ∧
    dictLookup c3st2.emoji_data_map "0x1" = some ⟨[1], false, 10, 3, 4, 25, 1⟩ := by
  refine ⟨by decide, by decide, by decide, by decide⟩

/-- Claim C3, amended: within one run an entry's id is assigned at most
once (a non-zero id is never changed by a later correlation), but width
and height are set from the given glyph's metrics on every call, so for
those fields the last writer wins, not the first. -/
theorem c3_amended_first_writer_id_only (st : CreatorState) (cps : List Nat) (g : String)
    (st' : CreatorState) (ed : _EmojiData)
    (hm : dictLookup st.emoji_data_map (codepoint_to_string cps) = some ed)
    (h : update_emoji_data st cps g = .ok st') :
    ∃ mt, dictLookup st.glyph_to_image_metrics_map g = some mt ∧
      dictLookup st'.emoji_data_map (codepoint_to_string cps) =
        some { ed with
               width := mt.width
               height := mt.height
               emoji_id := if ed.emoji_id = 0 then st.emoji_id else ed.emoji_id } :=
  update_emoji_data_self st cps g st' ed hm h

/-- Witness for `c3_amended_first_writer_id_only` at the concrete second
call of `c3_counterexample`: the non-zero id 10 is preserved and the
metrics become those of `g2`. -/
theorem c3_amended_witness :
    ∃ mt, dictLookup c3st1.glyph_to_image_metrics_map "g2" = some mt ∧
      dictLookup c3st2.emoji_data_map (codepoint_to_string [1]) =
        some { (⟨[1], false, 10, 1, 2, 25, 1⟩ : _EmojiData) with
               width := mt.width
               height := mt.height
               emoji_id := if (10 : Nat) = 0 then c3st1.emoji_id else 10 } :=
  c3_amended_first_writer_id_only c3st1 [1] "g2" c3st2 ⟨[1], false, 10, 1, 2, 25, 1⟩
    (by decide) (by decide)

/-! ### Claim C8 -/

/-- No cmap subtable has the shape `read_and_clear_cmap12` looks for. -/
def cmap12Missing (tables : List CmapTable) : Bool :=
  tables.all fun t => !(decide (t.format = 12 ∧ t.platformID = 3 ∧ t.platEncID = 10))

theorem processCmapPairs_ne_valueError :
    ∀ (pairs : List (Nat × String)) (st : CreatorState) (g2c : List (String × Nat)),
      processCmapPairs st g2c pairs ≠ .error .valueError := by
  intro pairs
  induction pairs with
  | nil => intro st g2c h; simp [processCmapPairs] at h
  | cons p rest ih =>
    intro st g2c h
    obtain ⟨cp, g⟩ := p
    simp only [processCmapPairs] at h
    cases hu : update_emoji_data st [cp] g with
    | error e =>
      rw [hu] at h
      have he := update_emoji_data_error _ _ _ _ hu
      subst he
      simp at h
    | ok st' =>
      rw [hu] at h
      exact ih st' _ h

/-- Claim C8: `read_and_clear_cmap12` raises `ValueError` ("Font doesn't
contain cmap with format:12, platformID:3 and platEncID:10") exactly when
no cmap subtable has format 12, platformID 3 and platEncID 10; when such a
table exists the walk never fails with that error (it can only raise the
unrelated `KeyError` for a glyph missing CBDT metrics). -/
theorem c8_cmap12_missing_fatal (st : CreatorState) (g2c : List (String × Nat))
    (tables : List CmapTable) :
    (read_and_clear_cmap12 st g2c tables = .error .valueError) ↔
      cmap12Missing tables = true := by
  induction tables generalizing st g2c with
  | nil => simp [read_and_clear_cmap12, cmap12Missing]
  | cons t rest ih =>
    by_cases hmatch : t.format = 12 ∧ t.platformID = 3 ∧ t.platEncID = 10
    · constructor
      · intro h
        exfalso
        simp only [read_and_clear_cmap12, if_pos hmatch] at h
        cases hp : processCmapPairs st g2c t.cmap with
        | error e =>
          rw [hp] at h
          injection h with h
          subst h
          exact processCmapPairs_ne_valueError _ _ _ hp
        | ok p =>
          rw [hp] at h
          simp at h
      · intro h
        exfalso
        simp [cmap12Missing, List.all_cons, hmatch] at h
    · simp only [read_and_clear_cmap12, if_neg hmatch]
      rw [ih]
      simp [cmap12Missing, List.all_cons]
      tauto

/-! ### Claim C9 -/

theorem lookupGlyphs_ok_isSome (g2c : List (String × Nat)) :
    ∀ (names : List String) (cps : List Nat), lookupGlyphs g2c names = .ok cps →
      ∀ n ∈ names, (dictLookup g2c n).isSome = true := by
  intro names
  induction names with
  | nil => intro cps _ n hn; simp at hn
  | cons name rest ih =>
    intro cps h n hn
    simp only [lookupGlyphs] at h
    cases hl : dictLookup g2c name with
    | none => rw [hl] at h; simp at h
    | some cp =>
      rw [hl] at h
      rcases List.mem_cons.mp hn with hn' | hn'
      · subst hn'
        simp [hl]
      · cases hr : lookupGlyphs g2c rest with
        | error e => rw [hr] at h; simp at h
        | ok cps' => exact ih cps' hr n hn'

theorem processLigatureList_ok_names (name : String) :
    ∀ (ligs : List Ligature) (st : CreatorState) (g2c : List (String × Nat))
      (st' : CreatorState), processLigatureList st g2c name ligs = .ok st' →
      ∀ n ∈ ligatureListNames name ligs, (dictLookup g2c n).isSome = true := by
  intro ligs
  induction ligs with
  | nil => intro st g2c st' _ n hn; simp [ligatureListNames] at hn
  | cons lig rest ih =>
    intro st g2c st' h n hn
    simp only [processLigatureList] at h
    cases hl : lookupGlyphs g2c (name :: lig.Component) with
    | error e => rw [hl] at h; simp at h
    | ok cps =>
      rw [hl] at h
      replace h : (match update_emoji_data st cps lig.LigGlyph with
          | .error e => (.error e : Except PyError CreatorState)
          | .ok st1 => processLigatureList st1 g2c name rest) = .ok st' := h
      cases hu : update_emoji_data st cps lig.LigGlyph with
      | error e => rw [hu] at h; simp at h
      | ok st1 =>
        rw [hu] at h
        rcases (by simpa [ligatureListNames] using hn :
            n = name ∨ n ∈ lig.Component ∨ n ∈ ligatureListNames name rest)
          with hn' | hn' | hn'
        · exact lookupGlyphs_ok_isSome g2c _ cps hl n (by simp [hn'])
        · exact lookupGlyphs_ok_isSome g2c _ cps hl n (by simp [hn'])
        · exact ih st1 g2c st' h n hn'

theorem processSubtable_ok_names :
    ∀ (pairs : List (String × List Ligature)) (st : CreatorState)
      (g2c : List (String × Nat)) (st' : CreatorState),
      processSubtable st g2c pairs = .ok st' →
      ∀ n ∈ pairs.foldr (fun p acc => ligatureListNames p.1 p.2 ++ acc) [],
        (dictLookup g2c n).isSome = true := by
  intro pairs
  induction pairs with
  | nil => intro st g2c st' _ n hn; simp at hn
  | cons p rest ih =>
    intro st g2c st' h n hn
    obtain ⟨name, ligs⟩ := p
    simp only [processSubtable] at h
    cases hl : processLigatureList st g2c name ligs with
    | error e => rw [hl] at h; simp at h
    | ok st1 =>
      rw [hl] at h
      rcases List.mem_append.mp (by simpa using hn) with hn' | hn'
      · exact processLigatureList_ok_names name ligs st g2c st1 hl n hn'
      · exact ih st1 g2c st' h n hn'

theorem processSubtables_ok_names :
    ∀ (subtables : List LigatureSubtable) (st : CreatorState)
      (g2c : List (String × Nat)) (st' : CreatorState),
      processSubtables st g2c subtables = .ok st' →
      ∀ n ∈ subtables.foldr (fun s acc => subtableNames s ++ acc) [],
        (dictLookup g2c n).isSome = true := by
  intro subtables
  induction subtables with
  | nil => intro st g2c st' _ n hn; simp at hn
  | cons s rest ih =>
    intro st g2c st' h n hn
    simp only [processSubtables] at h
    cases hl : processSubtable st g2c s.ligatures with
    | error e => rw [hl] at h; simp at h
    | ok st1 =>
      rw [hl] at h
      rcases List.mem_append.mp (by simpa using hn) with hn' | hn'
      · exact processSubtable_ok_names s.ligatures st g2c st1 hl n (by simpa [subtableNames] using hn')
      · exact ih st1 g2c st' h n hn'

/-- Claim C9: if the GSUB walk completes without raising, every glyph name
of every ligature rule (the base glyph the rule hangs under and each
component) was present in the glyph-to-codepoint side table built from the
cmap12 walk.  Contrapositively, a rule with a missing component makes
`glyph_to_codepoint_map[x]` raise `KeyError` and the run aborts; there is
no skip or recovery for such a rule. -/
theorem c9_gsub_components_required
    (st : CreatorState) (g2c : List (String × Nat)) (lookups : List GsubLookup)
    (st' : CreatorState) (h : read_and_clear_gsub st g2c lookups = .ok st') :
    ∀ n ∈ gsubGlyphNames lookups, (dictLookup g2c n).isSome = true := by
  induction lookups generalizing st with
  | nil => intro n hn; simp [gsubGlyphNames] at hn
  | cons lk rest ih =>
    intro n hn
    simp only [read_and_clear_gsub] at h
    cases hl : processSubtables st g2c lk.SubTable with
    | error e => rw [hl] at h; simp at h
    | ok st1 =>
      rw [hl] at h
      rcases List.mem_append.mp (by simpa [gsubGlyphNames] using hn) with hn' | hn'
      · exact processSubtables_ok_names lk.SubTable st g2c st1 hl n
          (by simpa [lookupNames] using hn')
      · exact ih st1 h n hn'

/-- A GSUB table with one ligature rule `a + b -> lig`. -/
def c9gsub : List GsubLookup := [⟨[⟨[("a", [⟨["b"], "lig"⟩])]⟩]⟩]

def c9g2c : List (String × Nat) := [("a", 1), ("b", 2)]

def c9st0 : CreatorState :=
  { emoji_data_map := [("0x1 0x2", _EmojiData.init [1, 2] false)]
    remapped_codepoints := []
    glyph_to_image_metrics_map := [("lig", ⟨5, 6⟩)]
    emoji_id := 7 }

def c9st1 : CreatorState :=
  { emoji_data_map := [("0x1 0x2", ⟨[1, 2], false, 7, 5, 6, 25, 1⟩)]
    remapped_codepoints := [(7, "lig")]
    glyph_to_image_metrics_map := [("lig", ⟨5, 6⟩)]
    emoji_id := 8 }

/-- Witness for `c9_gsub_components_required`: a concrete successful GSUB
walk, from which the theorem yields that both rule glyphs resolved. -/
theorem c9_gsub_components_required_witness :
    (dictLookup c9g2c "a").isSome = true ∧ (dictLookup c9g2c "b").isSome = true :=
  ⟨c9_gsub_components_required c9st0 c9g2c c9gsub c9st1 (by decide) "a" (by decide),
   c9_gsub_components_required c9st0 c9g2c c9gsub c9st1 (by decide) "b" (by decide)⟩

/-! ### Claims C7 and C10: the sequence reader -/

/-- Characterisation of `read_emoji_sequences`: every entry of the result
was either already in the map (unchanged, first definition wins) or is a
fresh `_EmojiData(codepoints, False)` keyed by the line's codepoints with
every `0xFE0F` stripped. -/
theorem read_emoji_sequences_lookup (lines : List (List Nat)) :
    ∀ (m : EmojiMap) (k : String) (e : _EmojiData),
      dictLookup (read_emoji_sequences m lines) k = some e →
      dictLookup m k = some e ∨
        (dictLookup m k = none ∧ ∃ cps ∈ lines,
          e = _EmojiData.init (stripVS cps) false ∧
          k = codepoint_to_string (stripVS cps)) := by
  induction lines with
  | nil => intro m k e h; exact Or.inl h
  | cons cps rest ih =>
    intro m k e h
    have hstep : read_emoji_sequences m (cps :: rest) =
        read_emoji_sequences (seqLineStep m cps) rest := rfl
    rw [hstep] at h
    rcases ih (seqLineStep m cps) k e h with h1 | ⟨h1, cps', hmem, he, hk⟩
    · unfold seqLineStep at h1
      cases hl : dictLookup m (codepoint_to_string (stripVS cps)) with
      | some ed => rw [hl] at h1; exact Or.inl h1
      | none =>
        rw [hl] at h1
        by_cases hkk : k = codepoint_to_string (stripVS cps)
        · subst hkk
          rw [dictLookup_insert_self] at h1
          injection h1 with h1
          exact Or.inr ⟨hl, cps, List.mem_cons_self _ _, h1.symm, rfl⟩
        · rw [dictLookup_insert_ne _ _ _ _ hkk] at h1
          exact Or.inl h1
    · unfold seqLineStep at h1
      cases hl : dictLookup m (codepoint_to_string (stripVS cps)) with
      | some ed =>
        rw [hl] at h1
        exact Or.inr ⟨h1, cps', List.mem_cons_of_mem _ hmem, he, hk⟩
      | none =>
        rw [hl] at h1
        by_cases hkk : k = codepoint_to_string (stripVS cps)
        · subst hkk
          rw [dictLookup_insert_self] at h1
          simp at h1
        · rw [dictLookup_insert_ne _ _ _ _ hkk] at h1
          exact Or.inr ⟨h1, cps', List.mem_cons_of_mem _ hmem, he, hk⟩

/-- `read_emoji_sequences` never touches an entry that already exists. -/
theorem read_emoji_sequences_preserves (lines : List (List Nat)) :
    ∀ (m : EmojiMap) (k : String), (dictLookup m k).isSome = true →
      dictLookup (read_emoji_sequences m lines) k = dictLookup m k := by
  induction lines with
  | nil => intro m k _; rfl
  | cons cps rest ih =>
    intro m k hk
    have hstep : read_emoji_sequences m (cps :: rest) =
        read_emoji_sequences (seqLineStep m cps) rest := rfl
    rw [hstep]
    have hpres : dictLookup (seqLineStep m cps) k = dictLookup m k := by
      unfold seqLineStep
      cases hl : dictLookup m (codepoint_to_string (stripVS cps)) with
      | some ed => rfl
      | none =>
        have hkk : k ≠ codepoint_to_string (stripVS cps) := by
          intro hh
          rw [hh] at hk
          rw [hl] at hk
          simp at hk
        exact dictLookup_insert_ne _ _ _ _ hkk
    rw [ih (seqLineStep m cps) k (by rw [hpres]; exact hk), hpres]

/-- If every line's stripped key already exists, the whole pass is the
identity on the registry. -/
theorem read_emoji_sequences_all_present (lines : List (List Nat)) :
    ∀ (m : EmojiMap),
      (∀ cps ∈ lines, (dictLookup m (codepoint_to_string (stripVS cps))).isSome = true) →
      read_emoji_sequences m lines = m := by
  induction lines with
  | nil => intro m _; rfl
  | cons cps rest ih =>
    intro m hall
    have hstep : read_emoji_sequences m (cps :: rest) =
        read_emoji_sequences (seqLineStep m cps) rest := rfl
    have h1 : seqLineStep m cps = m := by
      unfold seqLineStep
      cases hl : dictLookup m (codepoint_to_string (stripVS cps)) with
      | some ed => rfl
      | none =>
        have := hall cps (List.mem_cons_self _ _)
        rw [hl] at this
        simp at this
    rw [hstep, h1]
    exact ih m (fun c hc => hall c (List.mem_cons_of_mem _ hc))

/-- Claim C7: for every sequence-grammar line the identity key is the
line's codepoints with every `0xFE0F` (`EMOJI_STYLE_VS`) occurrence
removed, and entries that already exist under such a key are left
entirely untouched — if every line's stripped key is already present the
pass does not change the registry at all, and any entry the pass did add
is a fresh record keyed and populated by stripped codepoints. -/
theorem c7_sequences_first_wins (m : EmojiMap) (lines : List (List Nat))
    (k : String) (e : _EmojiData)
    (hk : dictLookup (read_emoji_sequences m lines) k = some e) :
    (dictLookup m k = some e ∨
      (dictLookup m k = none ∧ ∃ cps ∈ lines,
        e = _EmojiData.init (stripVS cps) false ∧
        k = codepoint_to_string (stripVS cps))) ∧
    ((∀ cps ∈ lines, (dictLookup m (codepoint_to_string (stripVS cps))).isSome = true) →
      read_emoji_sequences m lines = m) :=
  ⟨read_emoji_sequences_lookup lines m k e hk,
   read_emoji_sequences_all_present lines m⟩

/-- Witness for `c7_sequences_first_wins`: the key of the line
`[0x1F1E6, 0xFE0F, 0x1F1E8]` is the one with `0xFE0F` stripped, it is
already present, and the pass leaves the registry unchanged. -/
theorem c7_sequences_first_wins_witness :
    (dictLookup [(codepoint_to_string [0x1F1E6, 0x1F1E8], _EmojiData.init [0x1F1E6, 0x1F1E8] true)]
        (codepoint_to_string [0x1F1E6, 0x1F1E8]) =
        some (_EmojiData.init [0x1F1E6, 0x1F1E8] true) ∨
      (dictLookup [(codepoint_to_string [0x1F1E6, 0x1F1E8], _EmojiData.init [0x1F1E6, 0x1F1E8] true)]
          (codepoint_to_string [0x1F1E6, 0x1F1E8]) = none ∧
        ∃ cps ∈ [[0x1F1E6, 0xFE0F, 0x1F1E8]],
          _EmojiData.init [0x1F1E6, 0x1F1E8] true = _EmojiData.init (stripVS cps) false ∧
          codepoint_to_string [0x1F1E6, 0x1F1E8] = codepoint_to_string (stripVS cps))) ∧
    ((∀ cps ∈ [[0x1F1E6, 0xFE0F, 0x1F1E8]],
        (dictLookup [(codepoint_to_string [0x1F1E6, 0x1F1E8], _EmojiData.init [0x1F1E6, 0x1F1E8] true)]
          (codepoint_to_string (stripVS cps))).isSome = true) →
      read_emoji_sequences
        [(codepoint_to_string [0x1F1E6, 0x1F1E8], _EmojiData.init [0x1F1E6, 0x1F1E8] true)]
        [[0x1F1E6, 0xFE0F, 0x1F1E8]] =
        [(codepoint_to_string [0x1F1E6, 0x1F1E8], _EmojiData.init [0x1F1E6, 0x1F1E8] true)]) :=
  c7_sequences_first_wins
    [(codepoint_to_string [0x1F1E6, 0x1F1E8], _EmojiData.init [0x1F1E6, 0x1F1E8] true)]
    [[0x1F1E6, 0xFE0F, 0x1F1E8]]
    (codepoint_to_string [0x1F1E6, 0x1F1E8])
    (_EmojiData.init [0x1F1E6, 0x1F1E8] true)
    (by decide)

/-- Claim C10: every entry `read_emoji_sequences` creates carries
`presentationStyle = false`; entries that were already present are
returned unchanged, so a sequence line can never set the flag to true. -/
theorem c10_sequences_default_style (m : EmojiMap) (lines : List (List Nat))
    (k : String) (e : _EmojiData)
    (hk : dictLookup (read_emoji_sequences m lines) k = some e) :
    dictLookup m k = some e ∨ (dictLookup m k = none ∧ e.emoji_style = false) := by
  rcases read_emoji_sequences_lookup lines m k e hk with h | ⟨h1, cps, _, he, _⟩
  · exact Or.inl h
  · exact Or.inr ⟨h1, by rw [he]; rfl⟩

/-- Witness for `c10_sequences_default_style`: an entry created from a
sequence line has `emoji_style = false`. -/
theorem c10_sequences_default_style_witness :
    dictLookup ([] : EmojiMap) (codepoint_to_string [0x1F600]) =
        some (_EmojiData.init [0x1F600] false) ∨
      (dictLookup ([] : EmojiMap) (codepoint_to_string [0x1F600]) = none ∧
        (_EmojiData.init [0x1F600] false).emoji_style = false) :=
  c10_sequences_default_style [] [[0x1F600]] (codepoint_to_string [0x1F600])
    (_EmojiData.init [0x1F600] false) (by decide)

/-! ### Claim C6: the interval reader and `EMOJI_STYLE_EXCEPTIONS` -/

/-- The registry holds an emoji-style entry under key `K`. -/
def hasStyleTrue (K : String) (m : EmojiMap) : Prop :=
  ∃ e, dictLookup m K = some e ∧ e.emoji_style = true

theorem intervalCpStep_some (m : EmojiMap) (style : Bool) (cp : Nat) (ed : _EmojiData)
    (hl : dictLookup m (codepoint_to_string [cp]) = some ed) :
    intervalCpStep m style cp =
      if style || decide (cp ∈ EMOJI_STYLE_EXCEPTIONS) then
        dictInsert m (codepoint_to_string [cp]) { ed with emoji_style := true }
      else m := by
  unfold intervalCpStep
  rw [hl]

theorem intervalCpStep_none (m : EmojiMap) (style : Bool) (cp : Nat)
    (hl : dictLookup m (codepoint_to_string [cp]) = none) :
    intervalCpStep m style cp =
      dictInsert m (codepoint_to_string [cp])
        (_EmojiData.init [cp] (style || decide (cp ∈ EMOJI_STYLE_EXCEPTIONS))) := by
  unfold intervalCpStep
  rw [hl]

theorem intervalCpStep_preserves (K : String) (m : EmojiMap) (style : Bool) (cp : Nat)
    (h : hasStyleTrue K m) : hasStyleTrue K (intervalCpStep m style cp) := by
  obtain ⟨e, he, hstyle⟩ := h
  cases hl : dictLookup m (codepoint_to_string [cp]) with
  | some ed =>
    rw [intervalCpStep_some m style cp ed hl]
    by_cases hcond : (style || decide (cp ∈ EMOJI_STYLE_EXCEPTIONS)) = true
    · rw [if_pos hcond]
      by_cases hkk : K = codepoint_to_string [cp]
      · subst hkk
        exact ⟨{ ed with emoji_style := true }, dictLookup_insert_self _ _ _, rfl⟩
      · exact ⟨e, by rw [dictLookup_insert_ne _ _ _ _ hkk]; exact he, hstyle⟩
    · rw [if_neg hcond]
      exact ⟨e, he, hstyle⟩
  | none =>
    rw [intervalCpStep_none m style cp hl]
    have hkk : K ≠ codepoint_to_string [cp] := by
      intro hh
      rw [hh, hl] at he
      exact Option.noConfusion he
    exact ⟨e, by rw [dictLookup_insert_ne _ _ _ _ hkk]; exact he, hstyle⟩

theorem intervalCpStep_establishes (m : EmojiMap) (style : Bool) (cp : Nat)
    (hexc : cp ∈ EMOJI_STYLE_EXCEPTIONS) :
    hasStyleTrue (codepoint_to_string [cp]) (intervalCpStep m style cp) := by
  have hcond : (style || decide (cp ∈ EMOJI_STYLE_EXCEPTIONS)) = true := by
    simp [hexc]
  cases hl : dictLookup m (codepoint_to_string [cp]) with
  | some ed =>
    rw [intervalCpStep_some m style cp ed hl, if_pos hcond]
    exact ⟨{ ed with emoji_style := true }, dictLookup_insert_self _ _ _, rfl⟩
  | none =>
    rw [intervalCpStep_none m style cp hl]
    refine ⟨_, dictLookup_insert_self _ _ _, ?_⟩
    simp [_EmojiData.init, hcond]

theorem foldCp_preserves (K : String) (style : Bool) :
    ∀ (cps : List Nat) (m : EmojiMap), hasStyleTrue K m →
      hasStyleTrue K (cps.foldl (fun m cp => intervalCpStep m style cp) m) := by
  intro cps
  induction cps with
  | nil => intro m h; exact h
  | cons c rest ih =>
    intro m h
    exact ih (intervalCpStep m style c) (intervalCpStep_preserves K m style c h)

theorem foldCp_establishes (style : Bool) (cp : Nat) (hexc : cp ∈ EMOJI_STYLE_EXCEPTIONS) :
    ∀ (cps : List Nat) (m : EmojiMap), cp ∈ cps →
      hasStyleTrue (codepoint_to_string [cp])
        (cps.foldl (fun m c => intervalCpStep m style c) m) := by
  intro cps
  induction cps with
  | nil => intro m h; simp at h
  | cons c rest ih =>
    intro m hmem
    rcases List.mem_cons.mp hmem with h | h
    · subst h
      exact foldCp_preserves _ style rest _ (intervalCpStep_establishes m style cp hexc)
    · exact ih (intervalCpStep m style c) h

theorem processIntervalLine_preserves (K : String) (m : EmojiMap) (line : IntervalLine)
    (h : hasStyleTrue K m) : hasStyleTrue K (processIntervalLine m line) :=
  foldCp_preserves K _ (expandIntervalLine line) m h

theorem processIntervalLine_establishes (m : EmojiMap) (line : IntervalLine) (cp : Nat)
    (hexc : cp ∈ EMOJI_STYLE_EXCEPTIONS) (hmem : cp ∈ expandIntervalLine line) :
    hasStyleTrue (codepoint_to_string [cp]) (processIntervalLine m line) :=
  foldCp_establishes _ cp hexc (expandIntervalLine line) m hmem

theorem read_emoji_intervals_preserves (K : String) :
    ∀ (lines : List IntervalLine) (m : EmojiMap), hasStyleTrue K m →
      hasStyleTrue K (read_emoji_intervals m lines) := by
  intro lines
  induction lines with
  | nil => intro m h; exact h
  | cons l rest ih =>
    intro m h
    exact ih (processIntervalLine m l) (processIntervalLine_preserves K m l h)

theorem read_emoji_intervals_establishes (cp : Nat) (hexc : cp ∈ EMOJI_STYLE_EXCEPTIONS) :
    ∀ (lines : List IntervalLine) (m : EmojiMap),
      (∃ line ∈ lines, cp ∈ expandIntervalLine line) →
      hasStyleTrue (codepoint_to_string [cp]) (read_emoji_intervals m lines) := by
  intro lines
  induction lines with
  | nil => intro m h; simp at h
  | cons l rest ih =>
    intro m hline
    by_cases hl : cp ∈ expandIntervalLine l
    · exact read_emoji_intervals_preserves _ rest _
        (processIntervalLine_establishes m l cp hexc hl)
    · obtain ⟨l', hl', hcp'⟩ := hline
      rcases List.mem_cons.mp hl' with h | h
      · exact absurd (h ▸ hcp') hl
      · exact ih (processIntervalLine m l) ⟨l', h, hcp'⟩

theorem read_emoji_sequences_keeps_style (K : String) (lines : List (List Nat))
    (m : EmojiMap) (h : hasStyleTrue K m) :
    hasStyleTrue K (read_emoji_sequences m lines) := by
  obtain ⟨e, he, hstyle⟩ := h
  refine ⟨e, ?_, hstyle⟩
  rw [read_emoji_sequences_preserves lines m K (by rw [he]; rfl)]
  exact he

/-- Claim C6: a code point of the fixed override set
`EMOJI_STYLE_EXCEPTIONS` that occurs in any interval-grammar line ends up
with `presentationStyle = true` in the loaded registry, whether or not any
line tags it `EMOJI_PRESENTATION`. -/
theorem c6_style_exceptions (dataLines : List IntervalLine)
    (zwjLines seqLines : List (List Nat)) (androidLines : Option (List (List Nat)))
    (cp : Nat) (hexc : cp ∈ EMOJI_STYLE_EXCEPTIONS)
    (hline : ∃ line ∈ dataLines, cp ∈ expandIntervalLine line) :
    ∃ e, dictLookup (load_emoji_data_map dataLines zwjLines seqLines androidLines)
        (codepoint_to_string [cp]) = some e ∧ e.emoji_style = true := by
  have h1 : hasStyleTrue (codepoint_to_string [cp]) (read_emoji_intervals [] dataLines) :=
    read_emoji_intervals_establishes cp hexc dataLines [] hline
  unfold load_emoji_data_map
  cases androidLines with
  | none =>
    exact read_emoji_sequences_keeps_style _ _ _
      (read_emoji_sequences_keeps_style _ _ _ h1)
  | some lines =>
    exact read_emoji_sequences_keeps_style _ _ _
      (read_emoji_sequences_keeps_style _ _ _
        (read_emoji_sequences_keeps_style _ _ _ h1))

/-- Witness for `c6_style_exceptions`: `0x2600` appears on a line whose
property is `EMOJI` (not `EMOJI_PRESENTATION`), yet its entry is
presentation-style. -/
theorem c6_style_exceptions_witness :
    ∃ e, dictLookup (load_emoji_data_map [⟨0x2600, none, "EMOJI"⟩] [] [] none)
        (codepoint_to_string [0x2600]) = some e ∧ e.emoji_style = true :=
  c6_style_exceptions [⟨0x2600, none, "EMOJI"⟩] [] [] none 0x2600
    (by decide) (by decide)

/-! ### Claim C2: the next-free-id computation of `load_previous_metadata` -/

theorem load_rows_nil (m : EmojiMap) (cur : Nat) : load_rows m cur [] = .ok (m, cur) := rfl

theorem load_rows_cons (m : EmojiMap) (cur : Nat) (row : List String)
    (rest : List (List String)) :
    load_rows m cur (row :: rest) =
      match load_rows_step m cur row with
      | .error e => .error e
      | .ok (m', cur') => load_rows m' cur' rest := rfl

theorem load_rows_step_emptyRow (m : EmojiMap) (cur : Nat) :
    load_rows_step m cur [] = .error .indexError := rfl

theorem load_rows_step_comment (m : EmojiMap) (cur : Nat) (c0 : String)
    (cells : List String) (hc : pyStartsWithHash c0 = true) :
    load_rows_step m cur (c0 :: cells) = .ok (m, cur) := by
  unfold load_rows_step
  simp [hc]

theorem load_rows_step_parse_error (m : EmojiMap) (cur : Nat) (c0 : String)
    (cells : List String) (e : PyError) (hc : pyStartsWithHash c0 = false)
    (hp : rowParseE (c0 :: cells) = .error e) :
    load_rows_step m cur (c0 :: cells) = .error e := by
  unfold load_rows_step
  simp [hc, hp]

theorem load_rows_step_matched (m : EmojiMap) (cur : Nat) (c0 : String)
    (cells : List String) (emoji_id sdk compat : Nat) (cps : List Nat) (ed : _EmojiData)
    (hc : pyStartsWithHash c0 = false)
    (hp : rowParseE (c0 :: cells) = .ok (emoji_id, sdk, compat, cps))
    (hm : dictLookup m (codepoint_to_string cps) = some ed) :
    load_rows_step m cur (c0 :: cells) =
      .ok (dictInsert m (codepoint_to_string cps) (ed.update emoji_id sdk compat),
        if cur ≤ emoji_id then emoji_id + 1 else cur) := by
  unfold load_rows_step
  simp [hc, hp, hm]

theorem load_rows_step_unmatched (m : EmojiMap) (cur : Nat) (c0 : String)
    (cells : List String) (emoji_id sdk compat : Nat) (cps : List Nat)
    (hc : pyStartsWithHash c0 = false)
    (hp : rowParseE (c0 :: cells) = .ok (emoji_id, sdk, compat, cps))
    (hm : dictLookup m (codepoint_to_string cps) = none) :
    load_rows_step m cur (c0 :: cells) = .ok (m, cur) := by
  unfold load_rows_step
  simp [hc, hp, hm]

/-- `load_rows` never adds or removes registry keys. -/
theorem load_rows_keys :
    ∀ (rows : List (List String)) (m : EmojiMap) (cur : Nat) (m' : EmojiMap) (next : Nat),
      load_rows m cur rows = .ok (m', next) →
      ∀ k, (dictLookup m' k).isSome = (dictLookup m k).isSome := by
  intro rows
  induction rows with
  | nil =>
    intro m cur m' next h k
    rw [load_rows_nil] at h
    simp only [Except.ok.injEq, Prod.mk.injEq] at h
    rw [← h.1]
  | cons row rest ih =>
    intro m cur m' next h k
    rw [load_rows_cons] at h
    cases row with
    | nil =>
      rw [load_rows_step_emptyRow] at h
      simp at h
    | cons c0 cells =>
      by_cases hc : pyStartsWithHash c0 = true
      · rw [load_rows_step_comment m cur c0 cells hc] at h
        replace h : load_rows m cur rest = .ok (m', next) := h
        exact ih m cur m' next h k
      · have hc' : pyStartsWithHash c0 = false := by simpa using hc
        cases hp : rowParseE (c0 :: cells) with
        | error e =>
          rw [load_rows_step_parse_error m cur c0 cells e hc' hp] at h
          simp at h
        | ok q =>
          obtain ⟨emoji_id, sdk, compat, cps⟩ := q
          cases hm : dictLookup m (codepoint_to_string cps) with
          | some ed =>
            rw [load_rows_step_matched m cur c0 cells emoji_id sdk compat cps ed hc' hp hm]
              at h
            replace h : load_rows
                (dictInsert m (codepoint_to_string cps) (ed.update emoji_id sdk compat))
                (if cur ≤ emoji_id then emoji_id + 1 else cur) rest = .ok (m', next) := h
            rw [ih _ _ _ _ h k]
            exact dictLookup_isSome_insert _ (by rw [hm]; rfl) k
          | none =>
            rw [load_rows_step_unmatched m cur c0 cells emoji_id sdk compat cps hc' hp hm]
              at h
            replace h : load_rows m cur rest = .ok (m', next) := h
            exact ih m cur m' next h k

/-- `matchedIds` only looks at which keys are present. -/
theorem matchedIds_congr :
    ∀ (rows : List (List String)) (m1 m2 : EmojiMap),
      (∀ k, (dictLookup m1 k).isSome = (dictLookup m2 k).isSome) →
      matchedIds m1 rows = matchedIds m2 rows := by
  intro rows
  induction rows with
  | nil => intro m1 m2 _; rfl
  | cons row rest ih =>
    intro m1 m2 hk
    unfold matchedIds
    rw [List.filterMap_cons, List.filterMap_cons]
    have htail : matchedIds m1 rest = matchedIds m2 rest := ih m1 m2 hk
    unfold matchedIds at htail
    rw [htail]
    cases row with
    | nil => rfl
    | cons c0 cells =>
      by_cases hc : pyStartsWithHash c0 = true
      · simp [hc]
      · have hc' : pyStartsWithHash c0 = false := by simpa using hc
        cases hp : rowParseE (c0 :: cells) with
        | error e => simp [hc', hp]
        | ok q =>
          obtain ⟨emoji_id, sdk, compat, cps⟩ := q
          simp [hc', hp, hk (codepoint_to_string cps)]

/-- The counter of `load_rows` folds `max cur (id + 1)` over the matched ids. -/
theorem load_rows_next :
    ∀ (rows : List (List String)) (m : EmojiMap) (cur : Nat) (m' : EmojiMap) (next : Nat),
      load_rows m cur rows = .ok (m', next) →
      next = (matchedIds m rows).foldl (fun c i => if c ≤ i then i + 1 else c) cur := by
  intro rows
  induction rows with
  | nil =>
    intro m cur m' next h
    rw [load_rows_nil] at h
    simp only [Except.ok.injEq, Prod.mk.injEq] at h
    rw [← h.2]
    rfl
  | cons row rest ih =>
    intro m cur m' next h
    rw [load_rows_cons] at h
    cases row with
    | nil =>
      rw [load_rows_step_emptyRow] at h
      simp at h
    | cons c0 cells =>
      by_cases hc : pyStartsWithHash c0 = true
      · rw [load_rows_step_comment m cur c0 cells hc] at h
        replace h : load_rows m cur rest = .ok (m', next) := h
        have hhead : matchedIds m ((c0 :: cells) :: rest) = matchedIds m rest := by
          unfold matchedIds
          rw [List.filterMap_cons]
          simp [hc]
        rw [hhead]
        exact ih m cur m' next h
      · have hc' : pyStartsWithHash c0 = false := by simpa using hc
        cases hp : rowParseE (c0 :: cells) with
        | error e =>
          rw [load_rows_step_parse_error m cur c0 cells e hc' hp] at h
          simp at h
        | ok q =>
          obtain ⟨emoji_id, sdk, compat, cps⟩ := q
          cases hm : dictLookup m (codepoint_to_string cps) with
          | some ed =>
            rw [load_rows_step_matched m cur c0 cells emoji_id sdk compat cps ed hc' hp hm]
              at h
            replace h : load_rows
                (dictInsert m (codepoint_to_string cps) (ed.update emoji_id sdk compat))
                (if cur ≤ emoji_id then emoji_id + 1 else cur) rest = .ok (m', next) := h
            have hhead : matchedIds m ((c0 :: cells) :: rest) =
                emoji_id :: matchedIds m rest := by
              unfold matchedIds
              rw [List.filterMap_cons]
              simp [hc', hp, hm]
            rw [hhead, List.foldl_cons]
            have hmid := ih _ _ _ _ h
            rw [hmid]
            have hcongr : matchedIds
                (dictInsert m (codepoint_to_string cps) (ed.update emoji_id sdk compat))
                rest = matchedIds m rest :=
              matchedIds_congr rest _ m
                (dictLookup_isSome_insert _ (by rw [hm]; rfl))
            rw [hcongr]
          | none =>
            rw [load_rows_step_unmatched m cur c0 cells emoji_id sdk compat cps hc' hp hm]
              at h
            replace h : load_rows m cur rest = .ok (m', next) := h
            have hhead : matchedIds m ((c0 :: cells) :: rest) = matchedIds m rest := by
              unfold matchedIds
              rw [List.filterMap_cons]
              simp [hc', hp, hm]
            rw [hhead]
            exact ih m cur m' next h

theorem foldl_max_init : ∀ (l : List Nat) (a : Nat),
    l.foldl max a = max a (l.foldl max 0) := by
  intro l
  induction l with
  | nil => intro a; simp
  | cons b t ih =>
    intro a
    rw [List.foldl_cons, List.foldl_cons, ih (max a b), ih (max 0 b)]
    omega

theorem foldl_bump_eq_max : ∀ (l : List Nat) (cur : Nat), 1 ≤ cur →
    l.foldl (fun c i => if c ≤ i then i + 1 else c) cur =
      max cur (l.foldl max 0 + 1) := by
  intro l
  induction l with
  | nil => intro cur h; simp; omega
  | cons i t ih =>
    intro cur h
    rw [List.foldl_cons]
    have hstep : (if cur ≤ i then i + 1 else cur) = max cur (i + 1) := by
      split <;> omega
    rw [hstep, ih (max cur (i + 1)) (by omega), List.foldl_cons]
    rw [foldl_max_init t (max 0 i)]
    have hF := t.foldl max 0
    omega

/-- Claim C2, amended: with no snapshot file the function returns
`DEFAULT_EMOJI_ID` (0xF0001).  With a snapshot it returns
`max(DEFAULT_EMOJI_ID, 1 + max id)` over only those snapshot records whose
identity key is present in the current registry — records whose key
matches nothing are dropped from the computation, and the result is never
below `DEFAULT_EMOJI_ID` even when the snapshot is non-empty. -/
theorem c2_amended_next_id :
    (∀ m : EmojiMap, load_previous_metadata none m = .ok (m, DEFAULT_EMOJI_ID)) ∧
    (∀ (m : EmojiMap) (rows : List (List String)) (m' : EmojiMap) (next : Nat),
      load_previous_metadata (some rows) m = .ok (m', next) →
      next = max DEFAULT_EMOJI_ID ((matchedIds m rows).foldl max 0 + 1)) := by
  constructor
  · intro m; rfl
  · intro m rows m' next h
    have h1 := load_rows_next rows m DEFAULT_EMOJI_ID m' next h
    rw [h1, foldl_bump_eq_max _ _ (by unfold DEFAULT_EMOJI_ID; omega)]

def c2exMap : EmojiMap := [("0x2", _EmojiData.init [2] false)]

/-- Claim C2, counterexample.  The snapshot `[["F0005", "19", "1", "1"]]`
is non-empty and its single id is 0xF0005, so the claim demands
0xF0005 + 1 = 0xF0006.  But the record's key `0x1` is not in the registry
(which only holds `0x2`), so `load_previous_metadata` returns the default
0xF0001 instead of max-plus-one. -/
theorem c2_counterexample :
    load_previous_metadata (some [["F0005", "19", "1", "1"]]) c2exMap =
      .ok (c2exMap, 0xF0001) ∧ (0xF0001 : Nat) ≠ 0xF0005 + 1 :=
  ⟨by decide, by decide⟩

def c2wMap : EmojiMap := [("0x1", _EmojiData.init [1] false)]

def c2wMapAfter : EmojiMap := [("0x1", ⟨[1], false, 0xF0005, 0, 0, 19, 1⟩)]

/-- Witness for `c2_amended_next_id` on a snapshot whose record matches. -/
theorem c2_amended_witness :
    load_previous_metadata (some [["F0005", "19", "1", "1"]]) c2wMap =
      .ok (c2wMapAfter, 0xF0006) ∧
    (0xF0006 : Nat) =
      max DEFAULT_EMOJI_ID
        ((matchedIds c2wMap [["F0005", "19", "1", "1"]]).foldl max 0 + 1) :=
  ⟨by decide,
   c2_amended_next_id.2 c2wMap [["F0005", "19", "1", "1"]] c2wMapAfter 0xF0006 (by decide)⟩

/-! ### Claim C1: what the emitters output -/

theorem emojiDataLe_trans : ∀ a b c : _EmojiData,
    emojiDataLe a b = true → emojiDataLe b c = true → emojiDataLe a c = true := by
  intro a b c hab hbc
  simp only [emojiDataLe, decide_eq_true_eq] at *
  omega

theorem emojiDataLe_total : ∀ a b : _EmojiData,
    emojiDataLe a b = true ∨ emojiDataLe b a = true := by
  intro a b
  simp only [emojiDataLe, decide_eq_true_eq]
  omega

/-- Claim C1, amended: `update_emoji_data` touches no registry entry other
than the one keyed by the walked codepoints (so an entry with no
correlated glyph is never assigned an id by the walk), but the two
emitters do not filter on `id != 0`: both outputs contain every registry
entry — also those with `id = 0` or with an id copied from the snapshot
but no glyph — in one shared order that is ascending by id. -/
theorem c1_amended_outputs_all_entries_sorted (m : EmojiMap) (st : CreatorState)
    (cps : List Nat) (g : String) (st' : CreatorState) (k : String)
    (hupd : update_emoji_data st cps g = .ok st') (hk : k ≠ codepoint_to_string cps) :
    dictLookup st'.emoji_data_map k = dictLookup st.emoji_data_map k ∧
    ∃ l : List _EmojiData, List.Perm l (dictValues m) ∧
      l.Pairwise (fun a b => a.emoji_id ≤ b.emoji_id) ∧
      (write_metadata_json m).1 = l.map _EmojiData.create_json_element ∧
      (write_metadata_json m).2 = (dictValues m).length ∧
      write_metadata_csv m = csvHeaderRow :: l.map _EmojiData.create_txt_row := by
  constructor
  · exact update_emoji_data_other_keys st cps g st' k hupd hk
  · refine ⟨sortedEmojiDataList m, pySorted_perm _ _, ?_, rfl, ?_, rfl⟩
    · have hp := pySorted_pairwise emojiDataLe emojiDataLe_trans emojiDataLe_total
        (dictValues m)
      exact hp.imp (fun h => by simpa [emojiDataLe] using h)
    · exact (pySorted_perm emojiDataLe (dictValues m)).length_eq

def c1wMap : EmojiMap := [("0x1", _EmojiData.init [1] false)]

def c1wSt : CreatorState := ⟨[], [], [], 5⟩

/-- Witness for `c1_amended_outputs_all_entries_sorted`: a registry with a
single unassigned (`id = 0`) entry still produces it in both outputs. -/
theorem c1_amended_witness :
    dictLookup c1wSt.emoji_data_map "0x7" = dictLookup c1wSt.emoji_data_map "0x7" ∧
    ∃ l : List _EmojiData, List.Perm l (dictValues c1wMap) ∧
      l.Pairwise (fun a b => a.emoji_id ≤ b.emoji_id) ∧
      (write_metadata_json c1wMap).1 = l.map _EmojiData.create_json_element ∧
      (write_metadata_json c1wMap).2 = (dictValues c1wMap).length ∧
      write_metadata_csv c1wMap = csvHeaderRow :: l.map _EmojiData.create_txt_row :=
  c1_amended_outputs_all_entries_sorted c1wMap c1wSt [2] "g" c1wSt "0x7"
    (by decide) (by decide)

def c1cexMap : EmojiMap := [("0x1", _EmojiData.init [1] false)]

def c1cexMapAfter : EmojiMap := [("0x1", ⟨[1], false, 0xF0005, 0, 0, 19, 1⟩)]

def c1cexState : CreatorState := ⟨c1cexMapAfter, [], [], 0xF0006⟩

/-- Claim C1, counterexample.  The registry holds the single entry `[0x1]`
and the font holds no glyph at all (its cmap12 subtable is empty, no GSUB
rules, no CBDT metrics), so the entry has no correlated glyph.  After
reconciliation with the previous snapshot the entry nevertheless carries
id 0xF0005 (not 0), the font walk leaves the state untouched, and both
emitters output the entry — contradicting both halves of the claim: the
id does not stay 0, the entry is present in both outputs, and the outputs
are not "exactly the entries with id != 0". -/
theorem c1_counterexample :
    load_previous_metadata (some [["F0005", "19", "1", "1"]]) c1cexMap =
      .ok (c1cexMapAfter, 0xF0006) ∧
    fontWalkCore c1cexState [⟨12, 3, 10, []⟩] [] = .ok (c1cexState, []) ∧
    (write_metadata_json c1cexMapAfter).1 = [⟨0xF0005, false, 19, 1, 0, 0, [1]⟩] ∧
    write_metadata_csv c1cexMapAfter = [csvHeaderRow, ["F0005", "19", "1", "1"]] :=
  ⟨by decide, by decide, by decide, by decide⟩

/-! ### Claim C4: the refilled cmap12 table -/

/-- Invariant carried through the font walk: remapped keys are distinct
non-zero ids, each backed by a registry entry holding that id, and the
counter never hands out id 0. -/
def remappedInv (st : CreatorState) : Prop :=
  (dictKeys st.remapped_codepoints).Nodup ∧ st.emoji_id ≠ 0 ∧
  ∀ p ∈ st.remapped_codepoints, p.1 ≠ 0 ∧
    ∃ k e, dictLookup st.emoji_data_map k = some e ∧ e.emoji_id = p.1

theorem update_emoji_data_inv (st : CreatorState) (cps : List Nat) (g : String)
    (st' : CreatorState) (h : update_emoji_data st cps g = .ok st')
    (hinv : remappedInv st) : remappedInv st' := by
  obtain ⟨hnd, hcnt, hrem⟩ := hinv
  unfold update_emoji_data at h
  cases hm : dictLookup st.emoji_data_map (codepoint_to_string cps) with
  | none =>
    rw [hm] at h
    simp only [Except.ok.injEq] at h
    rw [← h]
    exact ⟨hnd, hcnt, hrem⟩
  | some ed =>
    rw [hm] at h
    cases hg : dictLookup st.glyph_to_image_metrics_map g with
    | none => rw [hg] at h; simp at h
    | some mt =>
      rw [hg] at h
      by_cases hid : (ed.update_metrics mt).emoji_id = 0
      · simp only [hid, if_pos] at h
        injection h with h
        subst h
        refine ⟨dictKeys_insert_nodup _ _ hnd, by simp, ?_⟩
        intro p hp
        rcases mem_of_mem_dictInsert hp with hp' | hp'
        · subst hp'
          refine ⟨hcnt, codepoint_to_string cps,
            { ed.update_metrics mt with emoji_id := st.emoji_id },
            dictLookup_insert_self _ _ _, rfl⟩
        · obtain ⟨hne, k0, e0, hk0, hid0⟩ := hrem p hp'
          by_cases hkk : k0 = codepoint_to_string cps
          · exfalso
            rw [hkk, hm] at hk0
            injection hk0 with hk0
            have : ed.emoji_id = p.1 := by rw [← hk0] at hid0; exact hid0
            have hz : ed.emoji_id = 0 := hid
            exact hne (by rw [← this, hz])
          · exact ⟨hne, k0, e0, by
              rw [dictLookup_insert_ne _ _ _ _ hkk]; exact hk0, hid0⟩
      · simp only [hid, if_neg hid] at h
        injection h with h
        subst h
        refine ⟨dictKeys_insert_nodup _ _ hnd, hcnt, ?_⟩
        intro p hp
        rcases mem_of_mem_dictInsert hp with hp' | hp'
        · subst hp'
          exact ⟨hid, codepoint_to_string cps, ed.update_metrics mt,
            dictLookup_insert_self _ _ _, rfl⟩
        · obtain ⟨hne, k0, e0, hk0, hid0⟩ := hrem p hp'
          by_cases hkk : k0 = codepoint_to_string cps
          · refine ⟨hne, codepoint_to_string cps, ed.update_metrics mt,
              dictLookup_insert_self _ _ _, ?_⟩
            rw [hkk, hm] at hk0
            injection hk0 with hk0
            have : ed.emoji_id = p.1 := by rw [← hk0] at hid0; exact hid0
            exact this
          · exact ⟨hne, k0, e0, by
              rw [dictLookup_insert_ne _ _ _ _ hkk]; exact hk0, hid0⟩

theorem processCmapPairs_inv :
    ∀ (pairs : List (Nat × String)) (st : CreatorState) (g2c : List (String × Nat))
      (st' : CreatorState) (g2c' : List (String × Nat)),
      processCmapPairs st g2c pairs = .ok (st', g2c') → remappedInv st → remappedInv st' := by
  intro pairs
  induction pairs with
  | nil =>
    intro st g2c st' g2c' h hinv
    simp only [processCmapPairs, Except.ok.injEq, Prod.mk.injEq] at h
    rw [← h.1]
    exact hinv
  | cons p rest ih =>
    intro st g2c st' g2c' h hinv
    obtain ⟨cp, g⟩ := p
    simp only [processCmapPairs] at h
    cases hu : update_emoji_data st [cp] g with
    | error e => rw [hu] at h; simp at h
    | ok st1 =>
      rw [hu] at h
      exact ih st1 _ st' g2c' h (update_emoji_data_inv st [cp] g st1 hu hinv)

theorem read_and_clear_cmap12_inv :
    ∀ (tables : List CmapTable) (st : CreatorState) (g2c : List (String × Nat))
      (st' : CreatorState) (g2c' : List (String × Nat)) (tbl : CmapTable),
      read_and_clear_cmap12 st g2c tables = .ok (st', g2c', tbl) →
      remappedInv st → remappedInv st' ∧ tbl.cmap = [] := by
  intro tables
  induction tables with
  | nil => intro st g2c st' g2c' tbl h _; simp [read_and_clear_cmap12] at h
  | cons t rest ih =>
    intro st g2c st' g2c' tbl h hinv
    by_cases hmatch : t.format = 12 ∧ t.platformID = 3 ∧ t.platEncID = 10
    · simp only [read_and_clear_cmap12, if_pos hmatch] at h
      cases hp : processCmapPairs st g2c t.cmap with
      | error e => rw [hp] at h; simp at h
      | ok q =>
        obtain ⟨st1, g2c1⟩ := q
        rw [hp] at h
        simp only [Except.ok.injEq, Prod.mk.injEq] at h
        refine ⟨?_, ?_⟩
        · rw [← h.1]
          exact processCmapPairs_inv t.cmap st g2c st1 g2c1 hp hinv
        · rw [← h.2.2]
    · simp only [read_and_clear_cmap12, if_neg hmatch] at h
      exact ih st g2c st' g2c' tbl h hinv

theorem processLigatureList_inv (name : String) :
    ∀ (ligs : List Ligature) (st : CreatorState) (g2c : List (String × Nat))
      (st' : CreatorState),
      processLigatureList st g2c name ligs = .ok st' → remappedInv st → remappedInv st' := by
  intro ligs
  induction ligs with
  | nil =>
    intro st g2c st' h hinv
    simp only [processLigatureList, Except.ok.injEq] at h
    rw [← h]
    exact hinv
  | cons lig rest ih =>
    intro st g2c st' h hinv
    simp only [processLigatureList] at h
    cases hl : lookupGlyphs g2c (name :: lig.Component) with
    | error e => rw [hl] at h; simp at h
    | ok cps =>
      rw [hl] at h
      replace h : (match update_emoji_data st cps lig.LigGlyph with
          | .error e => (.error e : Except PyError CreatorState)
          | .ok st1 => processLigatureList st1 g2c name rest) = .ok st' := h
      cases hu : update_emoji_data st cps lig.LigGlyph with
      | error e => rw [hu] at h; simp at h
      | ok st1 =>
        rw [hu] at h
        exact ih st1 g2c st' h (update_emoji_data_inv st cps lig.LigGlyph st1 hu hinv)

theorem processSubtable_inv :
    ∀ (pairs : List (String × List Ligature)) (st : CreatorState)
      (g2c : List (String × Nat)) (st' : CreatorState),
      processSubtable st g2c pairs = .ok st' → remappedInv st → remappedInv st' := by
  intro pairs
  induction pairs with
  | nil =>
    intro st g2c st' h hinv
    simp only [processSubtable, Except.ok.injEq] at h
    rw [← h]
    exact hinv
  | cons p rest ih =>
    intro st g2c st' h hinv
    obtain ⟨name, ligs⟩ := p
    simp only [processSubtable] at h
    cases hl : processLigatureList st g2c name ligs with
    | error e => rw [hl] at h; simp at h
    | ok st1 =>
      rw [hl] at h
      exact ih st1 g2c st' h (processLigatureList_inv name ligs st g2c st1 hl hinv)

theorem processSubtables_inv :
    ∀ (subtables : List LigatureSubtable) (st : CreatorState)
      (g2c : List (String × Nat)) (st' : CreatorState),
      processSubtables st g2c subtables = .ok st' → remappedInv st → remappedInv st' := by
  intro subtables
  induction subtables with
  | nil =>
    intro st g2c st' h hinv
    simp only [processSubtables, Except.ok.injEq] at h
    rw [← h]
    exact hinv
  | cons s rest ih =>
    intro st g2c st' h hinv
    simp only [processSubtables] at h
    cases hl : processSubtable st g2c s.ligatures with
    | error e => rw [hl] at h; simp at h
    | ok st1 =>
      rw [hl] at h
      exact ih st1 g2c st' h (processSubtable_inv s.ligatures st g2c st1 hl hinv)

theorem read_and_clear_gsub_inv :
    ∀ (lookups : List GsubLookup) (st : CreatorState) (g2c : List (String × Nat))
      (st' : CreatorState),
      read_and_clear_gsub st g2c lookups = .ok st' → remappedInv st → remappedInv st' := by
  intro lookups
  induction lookups with
  | nil =>
    intro st g2c st' h hinv
    simp only [read_and_clear_gsub, Except.ok.injEq] at h
    rw [← h]
    exact hinv
  | cons lk rest ih =>
    intro st g2c st' h hinv
    simp only [read_and_clear_gsub] at h
    cases hl : processSubtables st g2c lk.SubTable with
    | error e => rw [hl] at h; simp at h
    | ok st1 =>
      rw [hl] at h
      exact ih st1 g2c st' h (processSubtables_inv lk.SubTable st g2c st1 hl hinv)

/-- Claim C4, amended: after the walk the single-code-point table holds
exactly the accumulated `remapped_codepoints` of the run — one
`id -> glyphName` pair for every entry that was correlated to a glyph
during the walk — with the pre-existing code-point keys all cleared.
Every key in the refilled table is a non-zero id carried by some registry
entry; but an entry whose non-zero id came only from the snapshot and
matched no glyph contributes nothing to the table, so the table need not
cover all entries with a non-zero id. -/
theorem c4_amended_final_cmap (st : CreatorState) (tables : List CmapTable)
    (lookups : List GsubLookup) (st' : CreatorState) (final : List (Nat × String))
    (hrem : st.remapped_codepoints = []) (hcnt : st.emoji_id ≠ 0)
    (h : fontWalkCore st tables lookups = .ok (st', final)) :
    final = st'.remapped_codepoints ∧
    ∀ p ∈ final, p.1 ≠ 0 ∧
      ∃ k e, dictLookup st'.emoji_data_map k = some e ∧ e.emoji_id = p.1 := by
  have hinv0 : remappedInv st := by
    refine ⟨by rw [hrem]; simp [dictKeys_nil], hcnt, ?_⟩
    intro p hp
    rw [hrem] at hp
    simp at hp
  unfold fontWalkCore at h
  cases h1 : read_and_clear_cmap12 st [] tables with
  | error e => rw [h1] at h; simp at h
  | ok q =>
    obtain ⟨st1, g2c, tbl⟩ := q
    rw [h1] at h
    replace h : (match read_and_clear_gsub st1 g2c lookups with
        | .error e => (.error e : Except PyError (CreatorState × List (Nat × String)))
        | .ok st2 => .ok (st2, dictUpdate tbl.cmap st2.remapped_codepoints)) =
        .ok (st', final) := h
    cases h2 : read_and_clear_gsub st1 g2c lookups with
    | error e => rw [h2] at h; simp at h
    | ok st2 =>
      rw [h2] at h
      simp only [Except.ok.injEq, Prod.mk.injEq] at h
      obtain ⟨hst, hfin⟩ := h
      subst hst
      obtain ⟨hinv1, hcleared⟩ := read_and_clear_cmap12_inv tables st [] st1 g2c tbl h1 hinv0
      have hinv2 : remappedInv st2 := read_and_clear_gsub_inv lookups st1 g2c st2 h2 hinv1
      have hfinal : final = st2.remapped_codepoints := by
        rw [← hfin, hcleared]
        exact dictUpdate_nil_of_nodup _ hinv2.1
      refine ⟨hfinal, ?_⟩
      intro p hp
      rw [hfinal] at hp
      exact hinv2.2.2 p hp

def c4wSt : CreatorState :=
  { emoji_data_map := [("0x1", _EmojiData.init [1] false)]
    remapped_codepoints := []
    glyph_to_image_metrics_map := [("g", ⟨3, 4⟩)]
    emoji_id := 0xF0001 }

def c4wStAfter : CreatorState :=
  { emoji_data_map := [("0x1", ⟨[1], false, 0xF0001, 3, 4, 25, 1⟩)]
    remapped_codepoints := [(0xF0001, "g")]
    glyph_to_image_metrics_map := [("g", ⟨3, 4⟩)]
    emoji_id := 0xF0002 }

/-- Witness for `c4_amended_final_cmap`: a walk that correlates one glyph
refills the table with exactly that `id -> glyph` pair. -/
theorem c4_amended_witness :
    [((0xF0001 : Nat), "g")] = c4wStAfter.remapped_codepoints ∧
    ∀ p ∈ [((0xF0001 : Nat), "g")], p.1 ≠ 0 ∧
      ∃ k e, dictLookup c4wStAfter.emoji_data_map k = some e ∧ e.emoji_id = p.1 :=
  c4_amended_final_cmap c4wSt [⟨12, 3, 10, [(1, "g")]⟩] [] c4wStAfter
    [(0xF0001, "g")] (by decide) (by decide) (by decide)

def c4cexMap : EmojiMap := [("0x2", ⟨[2], false, 0xF0007, 0, 0, 19, 1⟩)]

def c4cexState : CreatorState := ⟨c4cexMap, [], [], 0xF0008⟩

/-- Claim C4, counterexample.  The registry entry `[0x2]` carries the
non-zero id 0xF0007 (copied from the previous snapshot by
`load_previous_metadata`), but the font contains no glyph for it: after
the rewriting pass the cmap12 table is empty, so it does not contain a
mapping `id -> glyphName` for every registry entry with non-zero id. -/
theorem c4_counterexample :
    fontWalkCore c4cexState [⟨12, 3, 10, []⟩] [] = .ok (c4cexState, []) ∧
    dictLookup c4cexState.emoji_data_map "0x2" = some ⟨[2], false, 0xF0007, 0, 0, 19, 1⟩ ∧
    (0xF0007 : Nat) ≠ 0 :=
  ⟨by decide, by decide, by decide⟩

/-! ### Claim C5: the snapshot round trip -/

theorem dictLookup_mem {α β : Type} [DecidableEq α] :
    ∀ (d : List (α × β)) (k : α) (v : β), dictLookup d k = some v → (k, v) ∈ d := by
  intro d
  induction d with
  | nil => intro k v h; simp [dictLookup] at h
  | cons p rest ih =>
    intro k v h
    obtain ⟨k0, v0⟩ := p
    by_cases h0 : k0 = k
    · subst h0
      simp only [dictLookup, if_pos rfl] at h
      injection h with h
      simp [h]
    · simp only [dictLookup, if_neg h0] at h
      exact List.mem_cons_of_mem _ (ih k v h)

theorem mapM_hex_round : ∀ (cps : List Nat),
    (cps.map to_hex).mapM hex_str_to_int = some cps := by
  intro cps
  induction cps with
  | nil => rfl
  | cons c rest ih =>
    rw [List.map_cons, List.mapM_cons, hex_str_to_int_to_hex, ih]
    rfl

/-- The reader parses a written row back to exactly the entry's fields. -/
theorem rowParseE_create_txt_row (e : _EmojiData) :
    rowParseE e.create_txt_row =
      .ok (e.emoji_id, e.sdk_added, e.compat_added, e.codepoints) := by
  show rowParseE (to_hex e.emoji_id :: pyIntStr e.sdk_added :: pyIntStr e.compat_added ::
    e.codepoints.map to_hex) = _
  simp only [rowParseE, hex_str_to_int_to_hex, pyParseInt_pyIntStr, mapM_hex_round]

/-- The id cell of a written row is never mistaken for a comment. -/
theorem create_txt_row_not_comment (e : _EmojiData) :
    pyStartsWithHash (to_hex e.emoji_id) = false :=
  pyStartsWithHash_to_hex e.emoji_id

/-- Replaying the rows written for the entry list `l` (whose keys are
distinct) onto a registry `m2`: every row whose key is present in `m2`
copies its three numeric fields onto that entry, everything else is
untouched, and no row fails to parse. -/
theorem load_rows_written :
    ∀ (l : List _EmojiData) (m2 : EmojiMap) (cur : Nat),
      (l.map (fun e => codepoint_to_string e.codepoints)).Nodup →
      ∃ m2' next,
        load_rows m2 cur (l.map _EmojiData.create_txt_row) = .ok (m2', next) ∧
        (∀ k, k ∉ l.map (fun e => codepoint_to_string e.codepoints) →
          dictLookup m2' k = dictLookup m2 k) ∧
        (∀ e ∈ l, ∀ e2, dictLookup m2 (codepoint_to_string e.codepoints) = some e2 →
          dictLookup m2' (codepoint_to_string e.codepoints) =
            some (e2.update e.emoji_id e.sdk_added e.compat_added)) ∧
        (∀ e ∈ l, dictLookup m2 (codepoint_to_string e.codepoints) = none →
          dictLookup m2' (codepoint_to_string e.codepoints) = none) := by
  intro l
  induction l with
  | nil =>
    intro m2 cur _
    refine ⟨m2, cur, rfl, fun k _ => rfl, ?_, ?_⟩
    · intro e he; simp at he
    · intro e he; simp at he
  | cons e rest ih =>
    intro m2 cur hnd
    rw [List.map_cons, List.nodup_cons] at hnd
    obtain ⟨hhead, htail⟩ := hnd
    have hrow : e.create_txt_row = to_hex e.emoji_id :: pyIntStr e.sdk_added ::
        pyIntStr e.compat_added :: e.codepoints.map to_hex := rfl
    cases hm : dictLookup m2 (codepoint_to_string e.codepoints) with
    | some e2 =>
      have hstep : load_rows_step m2 cur e.create_txt_row =
          .ok (dictInsert m2 (codepoint_to_string e.codepoints)
              (e2.update e.emoji_id e.sdk_added e.compat_added),
            if cur ≤ e.emoji_id then e.emoji_id + 1 else cur) := by
        rw [hrow]
        exact load_rows_step_matched m2 cur _ _ _ _ _ _ e2
          (create_txt_row_not_comment e) (rowParseE_create_txt_row e) hm
      obtain ⟨m2', next, hload, ha, hb, hc⟩ :=
        ih (dictInsert m2 (codepoint_to_string e.codepoints)
              (e2.update e.emoji_id e.sdk_added e.compat_added))
          (if cur ≤ e.emoji_id then e.emoji_id + 1 else cur) htail
      refine ⟨m2', next, ?_, ?_, ?_, ?_⟩
      · rw [List.map_cons, load_rows_cons, hstep]
        exact hload
      · intro k hk
        simp only [List.map_cons, List.mem_cons, not_or] at hk
        rw [ha k hk.2, dictLookup_insert_ne _ _ _ _ hk.1]
      · intro e' he' e2' hm2'
        rcases List.mem_cons.mp he' with he'' | he''
        · subst he''
          have hm2'' : e2' = e2 := by
            rw [hm] at hm2'
            injection hm2' with hval
            exact hval.symm
          subst hm2''
          rw [ha _ hhead]
          exact dictLookup_insert_self _ _ _
        · have hne : codepoint_to_string e'.codepoints ≠
              codepoint_to_string e.codepoints := by
            intro hh
            exact hhead (hh ▸ List.mem_map_of_mem (fun x => codepoint_to_string x.codepoints) he'')
          refine hb e' he'' e2' ?_
          rw [dictLookup_insert_ne _ _ _ _ hne]
          exact hm2'
      · intro e' he' hm2'
        rcases List.mem_cons.mp he' with he'' | he''
        · subst he''
          rw [hm] at hm2'
          exact Option.noConfusion hm2'
        · have hne : codepoint_to_string e'.codepoints ≠
              codepoint_to_string e.codepoints := by
            intro hh
            exact hhead (hh ▸ List.mem_map_of_mem (fun x => codepoint_to_string x.codepoints) he'')
          refine hc e' he'' ?_
          rw [dictLookup_insert_ne _ _ _ _ hne]
          exact hm2'
    | none =>
      have hstep : load_rows_step m2 cur e.create_txt_row = .ok (m2, cur) := by
        rw [hrow]
        exact load_rows_step_unmatched m2 cur _ _ _ _ _ _
          (create_txt_row_not_comment e) (rowParseE_create_txt_row e) hm
      obtain ⟨m2', next, hload, ha, hb, hc⟩ := ih m2 cur htail
      refine ⟨m2', next, ?_, ?_, ?_, ?_⟩
      · rw [List.map_cons, load_rows_cons, hstep]
        exact hload
      · intro k hk
        simp only [List.map_cons, List.mem_cons, not_or] at hk
        exact ha k hk.2
      · intro e' he' e2' hm2'
        rcases List.mem_cons.mp he' with he'' | he''
        · subst he''
          rw [hm] at hm2'
          exact Option.noConfusion hm2'
        · exact hb e' he'' e2' hm2'
      · intro e' he' hm2'
        rcases List.mem_cons.mp he' with he'' | he''
        · subst he''
          rw [ha _ hhead]
          exact hm
        · exact hc e' he'' hm2'

/-- Claim C5: writing the snapshot and reconciling a fresh registry with
the same identity keys against it reproduces every still-present entry's
`id`, `sdkAdded` and `compatAdded` exactly, and assigns nothing new:
entries without a snapshot row keep their fresh values untouched.  The
hypotheses state what `load_emoji_data_map` guarantees for real
registries: each entry sits under the key of its own codepoints, and keys
are unique. -/
theorem c5_roundtrip (m m2 : EmojiMap)
    (hcoh : ∀ p ∈ m, p.1 = codepoint_to_string p.2.codepoints)
    (hnd : (dictKeys m).Nodup) :
    ∃ m2' next,
      load_previous_metadata (some (write_metadata_csv m)) m2 = .ok (m2', next) ∧
      (∀ k e, dictLookup m k = some e → ∀ e2, dictLookup m2 k = some e2 →
        dictLookup m2' k = some (e2.update e.emoji_id e.sdk_added e.compat_added)) ∧
      (∀ k, dictLookup m k = none → dictLookup m2' k = dictLookup m2 k) := by
  have hkeyeq : (dictValues m).map (fun e => codepoint_to_string e.codepoints) =
      dictKeys m := by
    unfold dictValues dictKeys
    rw [List.map_map]
    exact List.map_congr_left (fun p hp => (hcoh p hp).symm)
  have hperm : List.Perm (sortedEmojiDataList m) (dictValues m) := pySorted_perm _ _
  have hmapperm :
      List.Perm ((sortedEmojiDataList m).map (fun e => codepoint_to_string e.codepoints))
        ((dictValues m).map (fun e => codepoint_to_string e.codepoints)) :=
    hperm.map _
  have hndl :
      ((sortedEmojiDataList m).map (fun e => codepoint_to_string e.codepoints)).Nodup := by
    rw [hmapperm.nodup_iff, hkeyeq]
    exact hnd
  obtain ⟨m2', next, hload, ha, hb, hc⟩ :=
    load_rows_written (sortedEmojiDataList m) m2 DEFAULT_EMOJI_ID hndl
  refine ⟨m2', next, ?_, ?_, ?_⟩
  · show load_rows m2 DEFAULT_EMOJI_ID (write_metadata_csv m) = .ok (m2', next)
    unfold write_metadata_csv
    rw [load_rows_cons]
    have hhdr : load_rows_step m2 DEFAULT_EMOJI_ID csvHeaderRow =
        .ok (m2, DEFAULT_EMOJI_ID) :=
      load_rows_step_comment m2 DEFAULT_EMOJI_ID "#id"
        ["sdkAdded", "compatAdded", "codepoints"] (by decide)
    rw [hhdr]
    exact hload
  · intro k e hk e2 hk2
    have hmem : (k, e) ∈ m := dictLookup_mem m k e hk
    have hkey : k = codepoint_to_string e.codepoints := hcoh (k, e) hmem
    have hval : e ∈ dictValues m := by
      unfold dictValues
      exact List.mem_map_of_mem Prod.snd hmem
    have hl : e ∈ sortedEmojiDataList m := (hperm.mem_iff).mpr hval
    have hres := hb e hl e2 (by rw [← hkey]; exact hk2)
    rw [hkey]
    exact hres
  · intro k hk
    apply ha
    intro hmem
    have hkeys : k ∈ dictKeys m := by
      rw [← hkeyeq]
      exact (hmapperm.mem_iff).mp hmem
    exact (dictLookup_none_iff m k).mp hk hkeys

def c5wM : EmojiMap := [(codepoint_to_string [1, 2], ⟨[1, 2], true, 5, 7, 8, 19, 2⟩)]

def c5wM2 : EmojiMap := [(codepoint_to_string [1, 2], _EmojiData.init [1, 2] false)]

/-- Witness for `c5_roundtrip` on a one-entry registry. -/
theorem c5_roundtrip_witness :
    ∃ m2' next,
      load_previous_metadata (some (write_metadata_csv c5wM)) c5wM2 = .ok (m2', next) ∧
      (∀ k e, dictLookup c5wM k = some e → ∀ e2, dictLookup c5wM2 k = some e2 →
        dictLookup m2' k = some (e2.update e.emoji_id e.sdk_added e.compat_added)) ∧
      (∀ k, dictLookup c5wM k = none → dictLookup m2' k = dictLookup c5wM2 k) :=
  c5_roundtrip c5wM c5wM2 (by decide) (by decide)
